import Mathlib

/-!
Verification of the catalog bulk-ingestion and image-deduplication pipeline.

This file gives a shallow embedding, in Lean 4, of the pipeline code:

* `DriveService` (`app/application/service/drive_service.py`): link
  conversion, file-id extraction, and the retrying image fetcher;
* `UploadPlanilhaUseCase` (`app/application/usecases/impl/upload_planilha_use_case.py`):
  the in-run content-key cache of the spreadsheet-upload run;
* `CreateProductUseCase._process_product_images`
  (`app/application/usecases/impl/create_product_use_case.py`):
  reconciliation of a product's stored image rows;
* `ExcelLoaderService._extract_image_urls`
  (`app/application/service/excel_loader_service.py`): in-cell link extraction;
* `JobService` (`app/application/service/job_service.py`): the asynchronous
  job registry.

External libraries (HTTP via `requests`, `hashlib.sha1`, `json.loads`,
the object store, the relational store) are modelled as explicit oracle
parameters or as executable models of the fragment of their behaviour the
code exercises.  Machine-level details (threads, locks, wall-clock time)
are modelled by explicit state passing and integer timestamps.
-/

namespace Sitefortlar

/-! ## Python string primitives

Models of the Python `str` operations used by the pipeline, on ASCII
strings (all inputs handled by the code are URLs, header values and
spreadsheet cells).  Python `str.strip()` removes leading and trailing
whitespace; `in` is substring containment; `lower` maps ASCII letters to
lower case. -/

/-- Whitespace characters removed by Python `str.strip()` (ASCII subset). -/
def isPySpace (c : Char) : Bool :=
  c = ' ' || c = '\t' || c = '\n' || c = '\x0d' || c = '\x0b' || c = '\x0c'

/-- Python `str.strip()` on the character list. -/
def pyStripL (l : List Char) : List Char :=
  ((l.dropWhile isPySpace).reverse.dropWhile isPySpace).reverse

/-- Python `str.strip()`. -/
def pyStrip (s : String) : String :=
  String.mk (pyStripL s.data)

/-- Python `str.lower()` (ASCII). -/
def pyLower (s : String) : String :=
  String.mk (s.data.map Char.toLower)

/-- Substring search on character lists: does `sub` occur in `l`? -/
def containsSubL (sub : List Char) : List Char → Bool
  | [] => sub.isEmpty
  | c :: cs => sub.isPrefixOf (c :: cs) || containsSubL sub cs

/-- Python `sub in s` : substring containment. -/
def containsSub (sub s : String) : Bool :=
  containsSubL sub.data s.data

/-- Python `s.split(sep)` on the character list: split at every
occurrence of the separator, keeping empty parts. -/
def pySplitChar (sep : Char) : List Char → List (List Char)
  | [] => [[]]
  | c :: cs =>
    if c = sep then [] :: pySplitChar sep cs
    else
      match pySplitChar sep cs with
      | [] => [[c]]
      | g :: gs => (c :: g) :: gs

/-- Python `s.split(sep)`. -/
def pySplit (sep : Char) (s : String) : List String :=
  (pySplitChar sep s.data).map String.mk

/-- Python `s.startswith(p)`. -/
def pyStartsWith (s p : String) : Bool :=
  List.isPrefixOf p.data s.data

/-- Python truthiness of an optional string (`None` and `''` are falsy). -/
def strTruthy : Option String → Bool
  | none => false
  | some s => s ≠ ""

/-- Python truthiness of an optional byte string (`None` and `b''` are falsy). -/
def bytesTruthy : Option (List Nat) → Bool
  | none => false
  | some b => !b.isEmpty

/-! ## DriveService: link shapes and file-id extraction

Embedding of `DriveService.convert_drive_link` and
`DriveService.extract_drive_file_id` (`drive_service.py`, lines 14-88).
The two regular expressions `/file/d/([a-zA-Z0-9_-]+)` and
`[?&]id=([a-zA-Z0-9_-]+)` are modelled by an explicit left-to-right scan
that, like `re.search`, finds the leftmost position where the literal
part matches and is followed by at least one id character, and captures
the maximal (greedy) run of id characters there. -/

/-- The character class `[a-zA-Z0-9_-]` of a Drive file id. -/
def isIdChar (c : Char) : Bool :=
  c.isAlpha || c.isDigit || c = '_' || c = '-'

/-- `re.search(pat ++ "([a-zA-Z0-9_-]+)", l)` for a literal pattern `pat`:
leftmost occurrence of `pat` followed by a non-empty id-character run,
returning the greedy capture. -/
def searchCapture (pat : List Char) : List Char → Option (List Char)
  | [] => none
  | c :: cs =>
    if pat.isPrefixOf (c :: cs) && !(((c :: cs).drop pat.length).takeWhile isIdChar).isEmpty
    then some (((c :: cs).drop pat.length).takeWhile isIdChar)
    else searchCapture pat cs

/-- `re.search(r"[?&]id=([a-zA-Z0-9_-]+)", l)`: leftmost `?` or `&`
followed by `id=` and a non-empty id run. -/
def searchQueryId : List Char → Option (List Char)
  | [] => none
  | c :: cs =>
    if (c = '?' || c = '&') && ("id=".data.isPrefixOf cs)
        && !((cs.drop 3).takeWhile isIdChar).isEmpty
    then some ((cs.drop 3).takeWhile isIdChar)
    else searchQueryId cs

/-- `DriveService.extract_drive_file_id` (`drive_service.py` 61-88):
pattern 1 `/file/d/ID`, then pattern 2 `[?&]id=ID`, then pattern 3
`uc?export=download&id=ID`; `None` when the url is empty or nothing
matches. -/
def extract_drive_file_id (url : String) : Option String :=
  if url = "" then none
  else
    match searchCapture "/file/d/".data url.data with
    | some fid => some (String.mk fid)
    | none =>
      match searchQueryId url.data with
      | some fid => some (String.mk fid)
      | none =>
        match searchCapture "uc?export=download&id=".data url.data with
        | some fid => some (String.mk fid)
        | none => none

/-- `DriveService.convert_drive_link` (`drive_service.py` 14-59):
Supabase URLs pass through; otherwise the file id is extracted from the
`/file/d/` or `[?&]id=` shape and rewritten to the canonical direct
download URL; an already-direct URL passes through; else `None`. -/
def convert_drive_link (url : String) : Option String :=
  if containsSub "supabase.co" url || containsSub "supabase" (pyLower url) then
    some url
  else
    match searchCapture "/file/d/".data url.data with
    | some fid => some ("https://drive.google.com/uc?export=download&id=" ++ String.mk fid)
    | none =>
      match searchQueryId url.data with
      | some fid => some ("https://drive.google.com/uc?export=download&id=" ++ String.mk fid)
      | none =>
        if containsSub "uc?export=download&id=" url then some url else none

/-! ## UploadPlanilhaUseCase: content keys and the shared object path

Embedding of `UploadPlanilhaUseCase._image_key` and
`_shared_object_path` (`upload_planilha_use_case.py` 26-35).  `hashlib.sha1`
is an external library; it enters the embedding as an explicit function
parameter `sha1hex`. -/

/-- `UploadPlanilhaUseCase._image_key`: file-id key `drive_<id>` when an
id can be extracted from the original or the download URL, else the hash
fallback `url_<sha1hex(base)>`. -/
def image_key (sha1hex : String → String) (original_url download_url : String) : String :=
  match extract_drive_file_id original_url with
  | some fid => "drive_" ++ fid
  | none =>
    match extract_drive_file_id download_url with
    | some fid => "drive_" ++ fid
    | none =>
      let base := pyStrip (if download_url ≠ "" then download_url
                           else if original_url ≠ "" then original_url else "")
      "url_" ++ sha1hex base

/-- `UploadPlanilhaUseCase._shared_object_path`. -/
def shared_object_path (key : String) : String :=
  "produtos/shared/" ++ key ++ ".jpg"

/-- The key computed for one raw link in the image loop
(`upload_planilha_use_case.py` 152-167): the link is first converted;
conversion failure yields no key. -/
def resolved_key (sha1hex : String → String) (raw : String) : Option String :=
  match convert_drive_link raw with
  | none => none
  | some dl => some (image_key sha1hex raw dl)

/-! ### Scanning lemmas for the regex models -/

theorem takeWhile_all_append {p : Char → Bool} {l : List Char} (r : List Char)
    (h : ∀ c ∈ l, p c = true) : (l ++ r).takeWhile p = l ++ r.takeWhile p := by
  induction l with
  | nil => simp
  | cons a as ih =>
    have ha : p a = true := h a (List.mem_cons_self a as)
    simp only [List.cons_append, List.takeWhile_cons, ha, if_true]
    rw [ih (fun c hc => h c (List.mem_cons_of_mem a hc))]

theorem takeWhile_all {p : Char → Bool} {l : List Char}
    (h : ∀ c ∈ l, p c = true) : l.takeWhile p = l := by
  have := takeWhile_all_append (p := p) (l := l) [] h
  simpa using this

theorem searchCapture_eq_none_of_all (c0 : Char) (pat : List Char) {l : List Char}
    (h : ∀ c ∈ l, (c0 == c) = false) : searchCapture (c0 :: pat) l = none := by
  induction l with
  | nil => rfl
  | cons a as ih =>
    have ha : (c0 == a) = false := h a (List.mem_cons_self a as)
    simp only [searchCapture, List.isPrefixOf, ha, Bool.false_and, if_neg, Bool.false_eq_true,
      not_false_iff]
    exact ih (fun c hc => h c (List.mem_cons_of_mem a hc))

theorem searchQueryId_eq_none_of_all {l : List Char}
    (h : ∀ c ∈ l, c ≠ '?' ∧ c ≠ '&') : searchQueryId l = none := by
  induction l with
  | nil => rfl
  | cons a as ih =>
    have ha := h a (List.mem_cons_self a as)
    have h1 : (a = '?' || a = '&') = false := by
      simp [ha.1, ha.2]
    simp only [searchQueryId, h1, Bool.false_and, if_neg, Bool.false_eq_true, not_false_iff]
    exact ih (fun c hc => h c (List.mem_cons_of_mem a hc))

theorem idChar_ne_slash {c : Char} (h : isIdChar c = true) : ('/' == c) = false := by
  by_contra hne
  rw [Bool.not_eq_false, beq_iff_eq] at hne
  rw [← hne] at h
  exact absurd h (by decide)

theorem idChar_not_query {c : Char} (h : isIdChar c = true) : c ≠ '?' ∧ c ≠ '&' := by
  constructor <;> rintro rfl <;> exact absurd h (by decide)

theorem string_ne_empty_data {s : String} (h : s ≠ "") : s.data ≠ [] := by
  intro hd
  apply h
  cases s with
  | mk d => cases hd; rfl

theorem string_mk_data (s : String) : String.mk s.data = s := by
  cases s with
  | mk d => rfl

theorem isPrefixOf_self_append (l r : List Char) : l.isPrefixOf (l ++ r) = true := by
  induction l with
  | nil => simp [List.isPrefixOf]
  | cons a as ih => simp [List.isPrefixOf, ih]

theorem string_append_ne_empty_of_data {a b : String} (h : (a ++ b).data ≠ []) :
    (a ++ b) ≠ "" := by
  intro hcon
  apply h
  rw [hcon]

/-- Extraction is shape-independent: the `/file/d/ID/` share form yields `ID`. -/
theorem extract_id_path_shape (id : String) (hne : id ≠ "")
    (hid : ∀ c ∈ id.data, isIdChar c = true) :
    extract_drive_file_id ("https://drive.google.com/file/d/" ++ id ++ "/view?usp=sharing")
      = some id := by
  have hne' : id.data ≠ [] := string_ne_empty_data hne
  have htw : (id.data ++ "/view?usp=sharing".data).takeWhile isIdChar = id.data := by
    rw [takeWhile_all_append _ hid]
    simp [List.takeWhile_cons, show isIdChar '/' = false by decide]
  have hcap : searchCapture "/file/d/".data
      ("https://drive.google.com/file/d/" ++ id ++ "/view?usp=sharing").data
      = some id.data := by
    simp [String.data_append, searchCapture, List.isPrefixOf, htw, hne']
  have hempty : ("https://drive.google.com/file/d/" ++ id ++ "/view?usp=sharing") ≠ "" := by
    apply string_append_ne_empty_of_data
    simp [String.data_append, hne']
  simp only [extract_drive_file_id]
  rw [if_neg hempty, hcap]

/-- Extraction is shape-independent: the `open?id=ID` query form yields `ID`. -/
theorem extract_id_query_shape (id : String) (hne : id ≠ "")
    (hid : ∀ c ∈ id.data, isIdChar c = true) :
    extract_drive_file_id ("https://drive.google.com/open?id=" ++ id) = some id := by
  have hne' : id.data ≠ [] := string_ne_empty_data hne
  have htw : id.data.takeWhile isIdChar = id.data := takeWhile_all hid
  have htail : searchCapture "/file/d/".data id.data = none :=
    searchCapture_eq_none_of_all _ _ (fun c hc => idChar_ne_slash (hid c hc))
  have h1 : searchCapture "/file/d/".data ("https://drive.google.com/open?id=" ++ id).data
      = none := by
    simp [String.data_append, searchCapture, List.isPrefixOf, htail]
  have h2 : searchQueryId ("https://drive.google.com/open?id=" ++ id).data = some id.data := by
    simp [String.data_append, searchQueryId, List.isPrefixOf, htw, hne']
  have hempty : ("https://drive.google.com/open?id=" ++ id) ≠ "" := by
    apply string_append_ne_empty_of_data
    simp [String.data_append, hne']
  simp only [extract_drive_file_id]
  rw [if_neg hempty, h1, h2]

/-- Extraction is shape-independent: the direct `uc?export=download&id=ID`
form yields `ID`. -/
theorem extract_id_direct_shape (id : String) (hne : id ≠ "")
    (hid : ∀ c ∈ id.data, isIdChar c = true) :
    extract_drive_file_id ("https://drive.google.com/uc?export=download&id=" ++ id)
      = some id := by
  have hne' : id.data ≠ [] := string_ne_empty_data hne
  have htw : id.data.takeWhile isIdChar = id.data := takeWhile_all hid
  have htail : searchCapture "/file/d/".data id.data = none :=
    searchCapture_eq_none_of_all _ _ (fun c hc => idChar_ne_slash (hid c hc))
  have h1 : searchCapture "/file/d/".data
      ("https://drive.google.com/uc?export=download&id=" ++ id).data = none := by
    simp [String.data_append, searchCapture, List.isPrefixOf, htail]
  have h2 : searchQueryId ("https://drive.google.com/uc?export=download&id=" ++ id).data
      = some id.data := by
    simp [String.data_append, searchQueryId, List.isPrefixOf, htw, hne']
  have hempty : ("https://drive.google.com/uc?export=download&id=" ++ id) ≠ "" := by
    apply string_append_ne_empty_of_data
    simp [String.data_append, hne']
  simp only [extract_drive_file_id]
  rw [if_neg hempty, h1, h2]

/-- When the original URL already yields a file id, `_image_key` uses it,
whatever the download URL is. -/
theorem image_key_of_extract (sha1hex : String → String) (orig dl fid : String)
    (h : extract_drive_file_id orig = some fid) :
    image_key sha1hex orig dl = "drive_" ++ fid := by
  simp [image_key, h]

theorem searchCapture_some_containsSub {pat l : List Char} {x : List Char}
    (h : searchCapture pat l = some x) : containsSubL pat l = true := by
  induction l with
  | nil => simp [searchCapture] at h
  | cons a as ih =>
    rw [searchCapture] at h
    by_cases hc : (pat.isPrefixOf (a :: as)
        && !(((a :: as).drop pat.length).takeWhile isIdChar).isEmpty) = true
    · simp only [containsSubL]
      rw [Bool.and_eq_true] at hc
      simp [hc.1]
    · rw [if_neg hc] at h
      simp only [containsSubL, ih h, Bool.or_true]

/-- `convert_drive_link` succeeds whenever a file id is extractable. -/
theorem convert_isSome_of_extract {raw fid : String}
    (h : extract_drive_file_id raw = some fid) :
    ∃ dl, convert_drive_link raw = some dl := by
  rw [extract_drive_file_id] at h
  by_cases hs : (containsSub "supabase.co" raw || containsSub "supabase" (pyLower raw)) = true
  · exact ⟨raw, by rw [convert_drive_link, if_pos hs]⟩
  · rw [convert_drive_link, if_neg hs]
    by_cases hraw : raw = ""
    · rw [if_pos hraw] at h
      exact absurd h (by simp)
    · rw [if_neg hraw] at h
      cases h1 : searchCapture "/file/d/".data raw.data with
      | some x => exact ⟨_, rfl⟩
      | none =>
        rw [h1] at h
        cases h2 : searchQueryId raw.data with
        | some x => simp [h2]
        | none =>
          rw [h2] at h
          cases h3 : searchCapture "uc?export=download&id=".data raw.data with
          | none => rw [h3] at h; exact absurd h (by simp)
          | some x =>
            refine ⟨raw, ?_⟩
            have := searchCapture_some_containsSub h3
            simp [containsSub, this]

/-- The per-link key of the image loop for a link with an extractable id. -/
theorem resolved_key_of_extract (sha1hex : String → String) {raw fid : String}
    (h : extract_drive_file_id raw = some fid) :
    resolved_key sha1hex raw = some ("drive_" ++ fid) := by
  obtain ⟨dl, hdl⟩ := convert_isSome_of_extract h
  rw [resolved_key, hdl]
  show some (image_key sha1hex raw dl) = some ("drive_" ++ fid)
  rw [image_key_of_extract sha1hex raw dl fid h]

theorem image_key_url_prefix_iff (sha1hex : String → String) (orig dl : String) :
    pyStartsWith (image_key sha1hex orig dl) "url_" = true ↔
      (extract_drive_file_id orig = none ∧ extract_drive_file_id dl = none) := by
  rw [image_key]
  cases h1 : extract_drive_file_id orig with
  | some fid => simp [pyStartsWith, String.data_append, List.isPrefixOf]
  | none =>
    cases h2 : extract_drive_file_id dl with
    | some fid => simp [pyStartsWith, String.data_append, List.isPrefixOf]
    | none => simp [pyStartsWith, String.data_append, isPrefixOf_self_append]

/-- **C2**  Cross-format key equivalence: the three Google Drive share-link
shapes carrying the same file id (`/file/d/ID/view`, `open?id=ID`, the
direct `uc?export=download&id=ID`) all resolve to the same file-id-based
content key `drive_ID`, hence to the same deterministic shared object
path; the URL-hash fallback key `url_...` is produced exactly when no
file id is extractable from either the original or the download URL. -/
theorem C2_cross_format_key_equivalence :
    (∀ (sha1hex : String → String) (id : String), id ≠ "" →
      (∀ c ∈ id.data, isIdChar c = true) →
      resolved_key sha1hex ("https://drive.google.com/file/d/" ++ id ++ "/view?usp=sharing")
          = some ("drive_" ++ id) ∧
      resolved_key sha1hex ("https://drive.google.com/open?id=" ++ id)
          = some ("drive_" ++ id) ∧
      resolved_key sha1hex ("https://drive.google.com/uc?export=download&id=" ++ id)
          = some ("drive_" ++ id) ∧
      (resolved_key sha1hex
            ("https://drive.google.com/file/d/" ++ id ++ "/view?usp=sharing")).map
          shared_object_path
        = (resolved_key sha1hex ("https://drive.google.com/open?id=" ++ id)).map
            shared_object_path ∧
      (resolved_key sha1hex ("https://drive.google.com/open?id=" ++ id)).map
          shared_object_path
        = (resolved_key sha1hex
              ("https://drive.google.com/uc?export=download&id=" ++ id)).map
            shared_object_path) ∧
    (∀ (sha1hex : String → String) (orig dl : String),
      pyStartsWith (image_key sha1hex orig dl) "url_" = true ↔
        (extract_drive_file_id orig = none ∧ extract_drive_file_id dl = none)) := by
  constructor
  · intro sha1hex id hne hid
    have e1 := resolved_key_of_extract sha1hex (extract_id_path_shape id hne hid)
    have e2 := resolved_key_of_extract sha1hex (extract_id_query_shape id hne hid)
    have e3 := resolved_key_of_extract sha1hex (extract_id_direct_shape id hne hid)
    refine ⟨e1, e2, e3, ?_, ?_⟩ <;> simp only [e1, e2, e3]
  · exact image_key_url_prefix_iff

/-- Witness for C2 at the concrete id `AbC-12_x` and concrete non-Drive URLs. -/
theorem C2_cross_format_key_equivalence_witness :
    resolved_key (fun _ => "deadbeef")
        ("https://drive.google.com/file/d/" ++ "AbC-12_x" ++ "/view?usp=sharing")
      = some ("drive_" ++ "AbC-12_x") ∧
    resolved_key (fun _ => "deadbeef") ("https://drive.google.com/open?id=" ++ "AbC-12_x")
      = some ("drive_" ++ "AbC-12_x") ∧
    pyStartsWith
        (image_key (fun _ => "deadbeef") "https://example.com/a" "https://example.com/b")
        "url_" = true :=
  ⟨(C2_cross_format_key_equivalence.1 (fun _ => "deadbeef") "AbC-12_x" (by decide)
      (by decide)).1,
   (C2_cross_format_key_equivalence.1 (fun _ => "deadbeef") "AbC-12_x" (by decide)
      (by decide)).2.1,
   (C2_cross_format_key_equivalence.2 (fun _ => "deadbeef") "https://example.com/a"
      "https://example.com/b").mpr ⟨by decide, by decide⟩⟩

/-! ## UploadPlanilhaUseCase: the in-run dedup cache

Embedding of the per-image body of the row loop of
`UploadPlanilhaUseCase.execute` (`upload_planilha_use_case.py` 147-207).
The network download and the storage upload are external effects; each
image occurrence carries its own oracle outcome for them (`fetchR`,
`fetchCT`, `uploadR`).  `None`-or-empty results are falsy in the code
(`if not image_bytes`, `if not supabase_url`), which the model reproduces
with `bytesTruthy` / `strTruthy`.  Observable network/storage activity is
returned as an explicit event list. -/

/-- One occurrence of an image link in the run, with the outcomes the
external world would give its download and upload. -/
structure ImgStep where
  raw : String
  fetchR : Option (List Nat)
  fetchCT : Option String
  uploadR : Option String
deriving Repr, DecidableEq

/-- Observable external activity of the image loop: a network download of
`url`, or a storage upload to `path` (with its success flag and the key it
serves). -/
inductive UpEv where
  | fetch (key url : String)
  | upload (key path : String) (ok : Bool)
deriving Repr, DecidableEq

/-- The in-run cache `_shared_image_cache` (a Python dict), as an
association list: insertion of a fresh key conses it on. -/
def cacheInsert (cache : List (String × String)) (k v : String) :
    List (String × String) :=
  (k, v) :: cache

/-- Body of the inner image loop (`upload_planilha_use_case.py` 150-207)
for one occurrence: convert the link, pass Supabase URLs through, then
check the in-run cache; on a miss download and upload, populating the
cache only when the upload returned a URL. -/
def processImage (sha1hex : String → String) (cache : List (String × String))
    (st : ImgStep) :
    List (String × String) × Option String × List UpEv :=
  match convert_drive_link st.raw with
  | none => (cache, none, [])
  | some dl =>
    if containsSub "supabase.co" dl || containsSub "supabase" (pyLower dl) then
      (cache, some dl, [])
    else
      let key := image_key sha1hex st.raw dl
      if strTruthy (List.lookup key cache) then
        (cache, List.lookup key cache, [])
      else
        if bytesTruthy st.fetchR then
          if strTruthy st.uploadR then
            (cacheInsert cache key (st.uploadR.getD ""), st.uploadR,
              [UpEv.fetch key dl, UpEv.upload key (shared_object_path key) true])
          else
            (cache, none,
              [UpEv.fetch key dl, UpEv.upload key (shared_object_path key) false])
        else
          (cache, none, [UpEv.fetch key dl])

/-- The whole image loop of a run: fold `processImage` over the
occurrences, concatenating the emitted events. -/
def runImages (sha1hex : String → String) (cache : List (String × String)) :
    List ImgStep → List (String × String) × List UpEv
  | [] => (cache, [])
  | st :: rest =>
    let r := processImage sha1hex cache st
    let rr := runImages sha1hex r.1 rest
    (rr.1, r.2.2 ++ rr.2)

/-- The content key of an occurrence, when the loop computes one
(conversion succeeded and the converted URL is not a Supabase URL). -/
def stepKey (sha1hex : String → String) (st : ImgStep) : Option String :=
  match convert_drive_link st.raw with
  | none => none
  | some dl =>
    if containsSub "supabase.co" dl || containsSub "supabase" (pyLower dl) then none
    else some (image_key sha1hex st.raw dl)

/-- Events attributed to content key `k`. -/
def evKey : UpEv → String
  | UpEv.fetch k _ => k
  | UpEv.upload k _ _ => k

/-- Count of successful uploads for key `k` in an event list. -/
def successfulUploads (k : String) (evs : List UpEv) : Nat :=
  (evs.filter (fun e => match e with
    | UpEv.upload k' _ ok => k' = k && ok
    | _ => false)).length


/-! ### In-run dedup lemmas -/

/-- A cache hit returns the cached URL, changes nothing and touches no
external system. -/
theorem processImage_hit {sha1hex : String → String}
    {cache : List (String × String)} {st : ImgStep} {k : String}
    (hk : stepKey sha1hex st = some k)
    (hc : strTruthy (List.lookup k cache) = true) :
    processImage sha1hex cache st = (cache, List.lookup k cache, []) := by
  cases h : convert_drive_link st.raw with
  | none => simp [stepKey, h] at hk
  | some dl =>
    simp only [stepKey, h] at hk
    by_cases hs : (containsSub "supabase.co" dl || containsSub "supabase" (pyLower dl)) = true
    · rw [if_pos hs] at hk; exact absurd hk (by simp)
    · rw [if_neg hs] at hk
      have hkey : image_key sha1hex st.raw dl = k := by
        simpa using hk
      simp only [processImage, h, if_neg hs, hkey, hc, if_true]

/-- The cache changes only when the key was a miss, the download returned
truthy bytes and the upload returned a truthy URL; the new binding is the
uploaded URL under the occurrence's key. -/
theorem processImage_populate {sha1hex : String → String}
    {cache : List (String × String)} {st : ImgStep}
    (hne : (processImage sha1hex cache st).1 ≠ cache) :
    ∃ k u, stepKey sha1hex st = some k ∧
      strTruthy (List.lookup k cache) = false ∧
      bytesTruthy st.fetchR = true ∧ st.uploadR = some u ∧ u ≠ "" ∧
      (processImage sha1hex cache st).1 = (k, u) :: cache ∧
      (processImage sha1hex cache st).2.1 = some u ∧
      (processImage sha1hex cache st).2.2
        = [UpEv.fetch k (convert_drive_link st.raw |>.getD ""),
           UpEv.upload k (shared_object_path k) true] := by
  cases h : convert_drive_link st.raw with
  | none => exact absurd (by simp [processImage, h]) hne
  | some dl =>
    by_cases hs : (containsSub "supabase.co" dl || containsSub "supabase" (pyLower dl)) = true
    · exact absurd (by simp [processImage, h, hs]) hne
    · by_cases hc : strTruthy (List.lookup (image_key sha1hex st.raw dl) cache) = true
      · exact absurd (by simp [processImage, h, hs, hc]) hne
      · by_cases hf : bytesTruthy st.fetchR = true
        · by_cases hu : strTruthy st.uploadR = true
          · obtain ⟨u, hu1, hu2⟩ : ∃ u, st.uploadR = some u ∧ u ≠ "" := by
              cases huo : st.uploadR with
              | none => rw [huo] at hu; simp [strTruthy] at hu
              | some u =>
                rw [huo] at hu
                simp only [strTruthy] at hu
                exact ⟨u, rfl, by simpa using hu⟩
            have hsu : strTruthy (some u) = true := by simp [strTruthy, hu2]
            refine ⟨image_key sha1hex st.raw dl, u, ?_, ?_, hf, hu1, hu2, ?_, ?_, ?_⟩
            · simp [stepKey, h, hs]
            · simpa using hc
            · simp [processImage, h, hs, hc, hf, hu1, hsu, cacheInsert]
            · simp [processImage, h, hs, hc, hf, hu1, hsu]
            · simp [processImage, h, hs, hc, hf, hu1, hsu]
          · exact absurd (by simp [processImage, h, hs, hc, hf, hu]) hne
        · exact absurd (by simp [processImage, h, hs, hc, hf]) hne


/-- Truthy cache bindings survive any later occurrence. -/
theorem processImage_preserves_truthy {sha1hex : String → String}
    {cache : List (String × String)} {st : ImgStep} {k : String}
    (h : strTruthy (List.lookup k cache) = true) :
    strTruthy (List.lookup k (processImage sha1hex cache st).1) = true := by
  by_cases hne : (processImage sha1hex cache st).1 = cache
  · rw [hne]; exact h
  · obtain ⟨k', u, _, _, _, _, hu2, heq, _, _⟩ := processImage_populate hne
    rw [heq]
    by_cases hk : k = k'
    · subst hk
      simp [List.lookup, strTruthy, hu2]
    · have hbeq : (k == k') = false := by simp [hk]
      simp only [List.lookup, hbeq]
      exact h

/-- External events are only emitted for keys that were a cache miss. -/
theorem processImage_events_miss {sha1hex : String → String}
    {cache : List (String × String)} {st : ImgStep} {e : UpEv}
    (he : e ∈ (processImage sha1hex cache st).2.2) :
    strTruthy (List.lookup (evKey e) cache) = false := by
  cases h : convert_drive_link st.raw with
  | none => simp [processImage, h] at he
  | some dl =>
    by_cases hs : (containsSub "supabase.co" dl || containsSub "supabase" (pyLower dl)) = true
    · simp [processImage, h, hs] at he
    · by_cases hc : strTruthy (List.lookup (image_key sha1hex st.raw dl) cache) = true
      · simp [processImage, h, hs, hc] at he
      · have hc' : strTruthy (List.lookup (image_key sha1hex st.raw dl) cache) = false := by
          cases hb : strTruthy (List.lookup (image_key sha1hex st.raw dl) cache) with
          | true => exact absurd hb hc
          | false => rfl
        by_cases hf : bytesTruthy st.fetchR = true
        · by_cases hu : strTruthy st.uploadR = true
          · simp [processImage, h, hs, hc, hf, hu] at he
            rcases he with rfl | rfl <;> simpa [evKey] using hc'
          · simp [processImage, h, hs, hc, hf, hu] at he
            rcases he with rfl | rfl <;> simpa [evKey] using hc'
        · simp [processImage, h, hs, hc, hf] at he
          subst he
          simpa [evKey] using hc'

/-- A successful upload event leaves its key truthy in the cache. -/
theorem processImage_success_truthy {sha1hex : String → String}
    {cache : List (String × String)} {st : ImgStep} {k p : String}
    (he : UpEv.upload k p true ∈ (processImage sha1hex cache st).2.2) :
    strTruthy (List.lookup k (processImage sha1hex cache st).1) = true := by
  cases h : convert_drive_link st.raw with
  | none => simp [processImage, h] at he
  | some dl =>
    by_cases hs : (containsSub "supabase.co" dl || containsSub "supabase" (pyLower dl)) = true
    · simp [processImage, h, hs] at he
    · by_cases hc : strTruthy (List.lookup (image_key sha1hex st.raw dl) cache) = true
      · simp [processImage, h, hs, hc] at he
      · by_cases hf : bytesTruthy st.fetchR = true
        · by_cases hu : strTruthy st.uploadR = true
          · simp only [processImage, h, hs, hc, hf, hu, if_true, if_neg, if_pos,
              Bool.false_eq_true, not_false_iff] at he ⊢
            simp only [List.mem_cons, List.mem_singleton] at he
            rcases he with he | he | he
            · exact absurd he (by simp)
            · obtain ⟨hk, -, -⟩ := UpEv.upload.inj he.symm
              subst hk
              cases huo : st.uploadR with
              | none => rw [huo] at hu; simp [strTruthy] at hu
              | some u =>
                rw [huo] at hu
                simp [List.lookup, strTruthy, cacheInsert, huo,
                  show u ≠ "" by simpa [strTruthy] using hu]
            · exact absurd he (by simp)
          · simp [processImage, h, hs, hc, hf, hu] at he
        · simp [processImage, h, hs, hc, hf] at he

/-- No successful upload is counted among events whose key is not `k`. -/
theorem successfulUploads_eq_zero {k : String} {evs : List UpEv}
    (h : ∀ e ∈ evs, evKey e ≠ k) : successfulUploads k evs = 0 := by
  rw [successfulUploads, List.length_eq_zero, List.filter_eq_nil_iff]
  intro e he
  cases e with
  | fetch k' url => simp
  | upload k' p ok =>
    have := h _ he
    simp only [evKey] at this
    simp [this]

/-- Once a key is truthy in the cache, a run emits no event for it. -/
theorem runImages_no_events_of_truthy (sha1hex : String → String) (k : String)
    (steps : List ImgStep) :
    ∀ cache, strTruthy (List.lookup k cache) = true →
      (runImages sha1hex cache steps).2.filter (fun e => evKey e = k) = [] := by
  induction steps with
  | nil => intro cache h; rfl
  | cons st rest ih =>
    intro cache h
    simp only [runImages, List.filter_append]
    rw [ih _ (processImage_preserves_truthy h), List.append_nil, List.filter_eq_nil_iff]
    intro e he hek
    simp only [decide_eq_true_eq] at hek
    have := processImage_events_miss he
    rw [hek, h] at this
    exact Bool.noConfusion this

/-- A run performs at most one successful upload per content key. -/
theorem runImages_successfulUploads_le_one (sha1hex : String → String) (k : String)
    (steps : List ImgStep) :
    ∀ cache, successfulUploads k (runImages sha1hex cache steps).2 ≤ 1 := by
  induction steps with
  | nil =>
    intro cache
    simp [runImages, successfulUploads]
  | cons st rest ih =>
    intro cache
    simp only [runImages, successfulUploads, List.filter_append, List.length_append]
    by_cases hmem : ∃ p, UpEv.upload k p true ∈ (processImage sha1hex cache st).2.2
    · obtain ⟨p, hp⟩ := hmem
      have htr := processImage_success_truthy hp
      have hrest := runImages_no_events_of_truthy sha1hex k rest _ htr
      have hrest0 : successfulUploads k (runImages sha1hex (processImage sha1hex cache st).1 rest).2 = 0 := by
        apply successfulUploads_eq_zero
        intro e he hek
        have : e ∈ (runImages sha1hex (processImage sha1hex cache st).1 rest).2.filter
            (fun e => evKey e = k) := by
          rw [List.mem_filter]
          exact ⟨he, by simp [hek]⟩
        rw [hrest] at this
        exact absurd this (List.not_mem_nil e)
      rw [successfulUploads] at hrest0
      rw [hrest0, Nat.add_zero]
      -- the step itself contributes at most one successful upload
      have hone : ((processImage sha1hex cache st).2.2.filter (fun e => match e with
          | UpEv.upload k' _ ok => k' = k && ok
          | _ => false)).length ≤ 1 := by
        by_cases hne : (processImage sha1hex cache st).1 = cache
        · -- unchanged cache: the only branches are hit/skip/fail ones; at most
          -- the failed-upload pair is emitted, which the filter rejects
          cases h : convert_drive_link st.raw with
          | none => simp [processImage, h]
          | some dl =>
            by_cases hs : (containsSub "supabase.co" dl || containsSub "supabase" (pyLower dl)) = true
            · simp [processImage, h, hs]
            · by_cases hc : strTruthy (List.lookup (image_key sha1hex st.raw dl) cache) = true
              · simp [processImage, h, hs, hc]
              · by_cases hf : bytesTruthy st.fetchR = true
                · by_cases hu : strTruthy st.uploadR = true
                  · have hx : (processImage sha1hex cache st).1
                        = (image_key sha1hex st.raw dl, st.uploadR.getD "") :: cache := by
                      simp [processImage, h, hs, hc, hf, hu, cacheInsert]
                    rw [hx] at hne
                    exact absurd hne (List.cons_ne_self _ _)
                  · simp [processImage, h, hs, hc, hf, hu]
                · simp [processImage, h, hs, hc, hf]
        · obtain ⟨k', u, -, -, -, -, -, -, -, hev⟩ := processImage_populate hne
          rw [hev]
          by_cases hk : k' = k <;> simp [hk]
      exact hone
    · have h0 : ((processImage sha1hex cache st).2.2.filter (fun e => match e with
          | UpEv.upload k' _ ok => k' = k && ok
          | _ => false)).length = 0 := by
        rw [List.length_eq_zero, List.filter_eq_nil_iff]
        intro e he hsel
        cases e with
        | fetch k' url => simp at hsel
        | upload k' p ok =>
          simp only [Bool.and_eq_true, decide_eq_true_eq] at hsel
          obtain ⟨rfl, rfl⟩ := hsel
          exact hmem ⟨p, he⟩
      rw [h0, Nat.zero_add]
      exact ih _


/-- **C1**  In-run dedup idempotence: within one spreadsheet-upload run,
(1) an occurrence whose content key is already cached is a pure cache
hit: it returns the cached URL, emits no fetch or upload, and leaves the
cache unchanged; (2) the cache changes only by binding the occurrence's
key to the URL of an upload that succeeded after a successful download —
never after a failed download or failed upload; (3) any run performs at
most one successful upload per content key; (4) once a key is cached, the
rest of the run emits no fetch or upload event for it. -/
theorem C1_in_run_dedup_idempotence :
    (∀ (sha1hex : String → String) (cache : List (String × String)) (st : ImgStep)
        (k : String), stepKey sha1hex st = some k →
        strTruthy (List.lookup k cache) = true →
        processImage sha1hex cache st = (cache, List.lookup k cache, [])) ∧
    (∀ (sha1hex : String → String) (cache : List (String × String)) (st : ImgStep),
        (processImage sha1hex cache st).1 ≠ cache →
        ∃ k u, stepKey sha1hex st = some k ∧
          strTruthy (List.lookup k cache) = false ∧
          bytesTruthy st.fetchR = true ∧ st.uploadR = some u ∧ u ≠ "" ∧
          (processImage sha1hex cache st).1 = (k, u) :: cache ∧
          (processImage sha1hex cache st).2.1 = some u ∧
          (processImage sha1hex cache st).2.2
            = [UpEv.fetch k (convert_drive_link st.raw |>.getD ""),
               UpEv.upload k (shared_object_path k) true]) ∧
    (∀ (sha1hex : String → String) (k : String) (steps : List ImgStep)
        (cache : List (String × String)),
        successfulUploads k (runImages sha1hex cache steps).2 ≤ 1) ∧
    (∀ (sha1hex : String → String) (k : String) (steps : List ImgStep)
        (cache : List (String × String)),
        strTruthy (List.lookup k cache) = true →
        (runImages sha1hex cache steps).2.filter (fun e => evKey e = k) = []) :=
  ⟨fun _ _ _ _ hk hc => processImage_hit hk hc,
   fun _ _ _ hne => processImage_populate hne,
   fun s k steps cache => runImages_successfulUploads_le_one s k steps cache,
   fun s k steps cache h => runImages_no_events_of_truthy s k steps cache h⟩

/-- Witness for C1: a concrete cached occurrence is a hit; a concrete
miss with successful download and upload populates the cache; a concrete
two-occurrence run uploads once; a concrete cached key gets no events. -/
theorem C1_in_run_dedup_idempotence_witness :
    (processImage (fun _ => "h") [("drive_ABC", "https://pub/shared.jpg")]
        ⟨"https://drive.google.com/open?id=ABC", some [1], some "image/jpeg",
          some "https://pub/other.jpg"⟩
      = ([("drive_ABC", "https://pub/shared.jpg")],
         List.lookup "drive_ABC" [("drive_ABC", "https://pub/shared.jpg")], [])) ∧
    (∃ k u, stepKey (fun _ => "h")
          ⟨"https://drive.google.com/open?id=ABC", some [1], some "image/jpeg",
            some "https://pub/a.jpg"⟩ = some k ∧
        strTruthy (List.lookup k ([] : List (String × String))) = false ∧
        bytesTruthy (some [1]) = true ∧ some "https://pub/a.jpg" = some u ∧ u ≠ "" ∧
        (processImage (fun _ => "h") []
            ⟨"https://drive.google.com/open?id=ABC", some [1], some "image/jpeg",
              some "https://pub/a.jpg"⟩).1 = (k, u) :: [] ∧
        (processImage (fun _ => "h") []
            ⟨"https://drive.google.com/open?id=ABC", some [1], some "image/jpeg",
              some "https://pub/a.jpg"⟩).2.1 = some u ∧
        (processImage (fun _ => "h") []
            ⟨"https://drive.google.com/open?id=ABC", some [1], some "image/jpeg",
              some "https://pub/a.jpg"⟩).2.2
          = [UpEv.fetch k (convert_drive_link "https://drive.google.com/open?id=ABC" |>.getD ""),
             UpEv.upload k (shared_object_path k) true]) ∧
    successfulUploads "drive_ABC"
        (runImages (fun _ => "h") []
          [⟨"https://drive.google.com/open?id=ABC", some [1], some "image/jpeg",
             some "https://pub/a.jpg"⟩,
           ⟨"https://drive.google.com/file/d/ABC/view", some [2], some "image/jpeg",
             some "https://pub/b.jpg"⟩]).2 ≤ 1 ∧
    (runImages (fun _ => "h") [("drive_ABC", "https://pub/shared.jpg")]
        [⟨"https://drive.google.com/open?id=ABC", some [1], some "image/jpeg",
           some "https://pub/a.jpg"⟩]).2.filter (fun e => evKey e = "drive_ABC") = [] := by
  refine ⟨?_, ?_, ?_, ?_⟩
  · exact C1_in_run_dedup_idempotence.1 (fun _ => "h") _ _ "drive_ABC" (by decide) (by decide)
  · exact C1_in_run_dedup_idempotence.2.1 (fun _ => "h") [] _ (by decide)
  · exact C1_in_run_dedup_idempotence.2.2.1 (fun _ => "h") "drive_ABC" _ _
  · exact C1_in_run_dedup_idempotence.2.2.2 (fun _ => "h") "drive_ABC" _ _ (by decide)

/-- **C4 counterexample**: the spreadsheet-upload loop (source lines
161-196) consults no catalog at all: on a concrete in-run cache miss it
downloads and uploads unconditionally — its embedding takes no catalog
argument, so the behaviour is the same whatever `ProductImage` rows
exist, refuting the claim that a catalog hit on the would-be storage URL
skips fetch and upload entirely. -/
theorem C4_counterexample :
    List.lookup "drive_ABC" ([] : List (String × String)) = none ∧
    (processImage (fun _ => "h") []
        ⟨"https://drive.google.com/open?id=ABC", some [7], some "image/jpeg",
          some "https://pub/x.jpg"⟩).2.2
      = [UpEv.fetch "drive_ABC" "https://drive.google.com/uc?export=download&id=ABC",
         UpEv.upload "drive_ABC" "produtos/shared/drive_ABC.jpg" true] := by
  decide


/-! ## CreateProductUseCase: image reconciliation

Embedding of `CreateProductUseCase._process_product_images`
(`create_product_use_case.py` 323-494).  The repository is a list of
`ProductImage` rows (`imagens_produto`); `create` appends a row with the
next surrogate id, `delete` removes by id, `get_by_produto` filters by
product, `get_by_url` returns the first row with the given URL.  The
Drive download (`download_image`) and the local save
(`LocalImageService.save_image_from_bytes`) are external effects,
modelled as oracles keyed by the URL being processed; attempted
downloads are recorded as events. -/

/-- A persisted `ProductImage` row. -/
structure PIRow where
  id : Nat
  pid : Nat
  url : String
deriving Repr, DecidableEq

/-- Key collection of `dict.fromkeys`: first occurrences, in order, of
elements not in `seen`. -/
def pyDedupGo (seen : List String) : List String → List String
  | [] => []
  | x :: xs =>
    if x ∈ seen then pyDedupGo seen xs
    else x :: pyDedupGo (x :: seen) xs

/-- Order-preserving de-duplication (`list(dict.fromkeys(image_urls))`):
keeps the first occurrence of each element. -/
def pyDedup (l : List String) : List String :=
  pyDedupGo [] l

/-- Observable external activity of reconciliation: an attempted Drive
download of `url`. -/
inductive RecEv where
  | fetch (url : String)
deriving Repr, DecidableEq

/-- State threaded through the reconciliation loop: the image table, the
next surrogate id, the `processed_local_urls` set and the emitted
events. -/
structure RecState where
  db : List PIRow
  nextId : Nat
  processed : List String
  events : List RecEv
deriving Repr, DecidableEq

/-- `processed_local_urls.add` (a Python set). -/
def addProcessed (l : List String) (u : String) : List String :=
  if u ∈ l then l else u :: l

/-- The `is_local_url` test of line 387. -/
def isLocalUrl (dl : String) : Bool :=
  containsSub "/api/assets/" dl || pyStartsWith dl "/api/assets/"

/-- Body of the reconciliation loop (`create_product_use_case.py`
362-478) for one de-duplicated URL. -/
def processOneImage (pid : Nat) (existingUrls : List String)
    (dlOf : String → Option (List Nat)) (savedOf : String → Option String)
    (s : RecState) (url : String) : RecState :=
  let clean := pyStrip url
  if clean = "" then s
  else if !(pyStartsWith clean "http://" || pyStartsWith clean "https://") then s
  else
    match convert_drive_link clean with
    | none => s
    | some dl =>
      if isLocalUrl dl then
        let localUrl := if pyStartsWith dl "/" then dl else "/" ++ dl
        if localUrl ∈ existingUrls then
          { s with processed := addProcessed s.processed localUrl }
        else
          { s with db := s.db ++ [⟨s.nextId, pid, localUrl⟩], nextId := s.nextId + 1,
                   processed := addProcessed s.processed localUrl }
      else
        if clean ∈ s.processed then s
        else
          if bytesTruthy (dlOf dl) then
            if strTruthy (savedOf clean) then
              match (savedOf clean).getD "" , s.db.find? (fun r => r.url = (savedOf clean).getD "") with
              | localUrl, some r =>
                if r.pid = pid then
                  { s with processed := addProcessed s.processed localUrl,
                           events := s.events ++ [RecEv.fetch dl] }
                else
                  { s with db := s.db ++ [⟨s.nextId, pid, localUrl⟩],
                           nextId := s.nextId + 1,
                           processed := addProcessed s.processed localUrl,
                           events := s.events ++ [RecEv.fetch dl] }
              | localUrl, none =>
                { s with db := s.db ++ [⟨s.nextId, pid, localUrl⟩],
                         nextId := s.nextId + 1,
                         processed := addProcessed s.processed localUrl,
                         events := s.events ++ [RecEv.fetch dl] }
            else
              { s with events := s.events ++ [RecEv.fetch dl] }
          else
            { s with events := s.events ++ [RecEv.fetch dl] }

/-- The reconciliation loop over the de-duplicated URL list. -/
def processImagesLoop (pid : Nat) (existingUrls : List String)
    (dlOf : String → Option (List Nat)) (savedOf : String → Option String) :
    RecState → List String → RecState
  | s, [] => s
  | s, u :: us =>
    processImagesLoop pid existingUrls dlOf savedOf
      (processOneImage pid existingUrls dlOf savedOf s u) us

/-- The URLs stored for product `pid`. -/
def urlsOf (pid : Nat) (db : List PIRow) : List String :=
  (db.filter (fun r => r.pid = pid)).map (fun r => r.url)

/-- `CreateProductUseCase._process_product_images`: snapshot the
product's rows, de-duplicate the raw list, run the loop, then delete
every snapshot row whose URL was not processed.  An empty raw list
returns immediately (source lines 332-334), deleting nothing. -/
def process_product_images (pid : Nat) (image_urls : List String)
    (dlOf : String → Option (List Nat)) (savedOf : String → Option String)
    (db : List PIRow) (nextId : Nat) : RecState :=
  if image_urls.isEmpty then ⟨db, nextId, [], []⟩
  else
    let existing := db.filter (fun r => r.pid = pid)
    let s := processImagesLoop pid (urlsOf pid db) dlOf savedOf
      ⟨db, nextId, [], []⟩ (pyDedup image_urls)
    let deletedIds := (existing.filter (fun r => r.url ∉ s.processed)).map (fun r => r.id)
    { s with db := s.db.filter (fun r => r.id ∉ deletedIds) }


/-! ### Reconciliation lemmas -/

theorem addProcessed_self (l : List String) (u : String) : u ∈ addProcessed l u := by
  rw [addProcessed]
  by_cases h : u ∈ l
  · rwa [if_pos h]
  · rw [if_neg h]; exact List.mem_cons_self u l

theorem addProcessed_mono {l : List String} {u : String} (v : String) (h : u ∈ l) :
    u ∈ addProcessed l v := by
  rw [addProcessed]
  by_cases hv : v ∈ l
  · rwa [if_pos hv]
  · rw [if_neg hv]; exact List.mem_cons_of_mem v h

theorem mem_addProcessed {l : List String} {u v : String} (h : u ∈ addProcessed l v) :
    u = v ∨ u ∈ l := by
  rw [addProcessed] at h
  by_cases hv : v ∈ l
  · rw [if_pos hv] at h; exact Or.inr h
  · rw [if_neg hv] at h
    rcases List.mem_cons.mp h with h | h
    · exact Or.inl h
    · exact Or.inr h

theorem mem_urlsOf {pid : Nat} {db : List PIRow} {r : PIRow} (hr : r ∈ db)
    (hp : r.pid = pid) : r.url ∈ urlsOf pid db := by
  rw [urlsOf]
  exact List.mem_map_of_mem _ (List.mem_filter.mpr ⟨hr, by simp [hp]⟩)

theorem urlsOf_mem_iff {pid : Nat} {db : List PIRow} {u : String} :
    u ∈ urlsOf pid db ↔ ∃ r ∈ db, r.pid = pid ∧ r.url = u := by
  rw [urlsOf]
  constructor
  · intro h
    obtain ⟨r, hr, hu⟩ := List.mem_map.mp h
    obtain ⟨hmem, hp⟩ := List.mem_filter.mp hr
    exact ⟨r, hmem, by simpa using hp, hu⟩
  · rintro ⟨r, hmem, hp, rfl⟩
    exact mem_urlsOf hmem hp

/-- Every iteration of the reconciliation loop either leaves the table,
the id counter and the processed set unchanged; or only marks as
processed a URL that is already stored (for this product among the
snapshot URLs, or anywhere in the current table for this product); or
inserts one fresh row for this product and marks its URL processed. -/
theorem processOneImage_shape (pid : Nat) (exU : List String)
    (dlOf : String → Option (List Nat)) (savedOf : String → Option String)
    (s : RecState) (url : String) :
    ((processOneImage pid exU dlOf savedOf s url).db = s.db ∧
     (processOneImage pid exU dlOf savedOf s url).nextId = s.nextId ∧
     (processOneImage pid exU dlOf savedOf s url).processed = s.processed) ∨
    (∃ v, (processOneImage pid exU dlOf savedOf s url).db = s.db ∧
       (processOneImage pid exU dlOf savedOf s url).nextId = s.nextId ∧
       (processOneImage pid exU dlOf savedOf s url).processed = addProcessed s.processed v ∧
       (v ∈ exU ∨ ∃ r, r ∈ s.db ∧ r.pid = pid ∧ r.url = v)) ∨
    (∃ v, (processOneImage pid exU dlOf savedOf s url).db
        = s.db ++ [⟨s.nextId, pid, v⟩] ∧
       (processOneImage pid exU dlOf savedOf s url).nextId = s.nextId + 1 ∧
       (processOneImage pid exU dlOf savedOf s url).processed
        = addProcessed s.processed v) := by
  by_cases h1 : pyStrip url = ""
  · exact Or.inl (by simp [processOneImage, h1])
  · by_cases h2 : (!(pyStartsWith (pyStrip url) "http://"
        || pyStartsWith (pyStrip url) "https://")) = true
    · exact Or.inl (by simp [processOneImage, h1, h2])
    · cases hcv : convert_drive_link (pyStrip url) with
      | none => exact Or.inl (by simp [processOneImage, h1, h2, hcv])
      | some dl =>
        by_cases hloc : isLocalUrl dl = true
        · by_cases hex : (if pyStartsWith dl "/" then dl else "/" ++ dl) ∈ exU
          · refine Or.inr (Or.inl ⟨_, ?_, ?_, ?_, Or.inl hex⟩) <;>
              simp [processOneImage, h1, h2, hcv, hloc, hex]
          · refine Or.inr (Or.inr ⟨(if pyStartsWith dl "/" then dl else "/" ++ dl),
                ?_, ?_, ?_⟩) <;>
              simp [processOneImage, h1, h2, hcv, hloc, hex]
        · by_cases hpr : pyStrip url ∈ s.processed
          · exact Or.inl (by simp [processOneImage, h1, h2, hcv, hloc, hpr])
          · by_cases hby : bytesTruthy (dlOf dl) = true
            · by_cases hsv : strTruthy (savedOf (pyStrip url)) = true
              · cases hf : s.db.find?
                    (fun r => r.url = (savedOf (pyStrip url)).getD "") with
                | some r =>
                  by_cases hrp : r.pid = pid
                  · have hru : r.url = (savedOf (pyStrip url)).getD "" := by
                      have := List.find?_some hf
                      simpa using this
                    refine Or.inr (Or.inl ⟨(savedOf (pyStrip url)).getD "", ?_, ?_, ?_,
                      Or.inr ⟨r, List.mem_of_find?_eq_some hf, hrp, hru⟩⟩) <;>
                      simp [processOneImage, h1, h2, hcv, hloc, hpr, hby, hsv, hf, hrp]
                  · refine Or.inr (Or.inr ⟨(savedOf (pyStrip url)).getD "", ?_, ?_, ?_⟩) <;>
                      simp [processOneImage, h1, h2, hcv, hloc, hpr, hby, hsv, hf, hrp]
                | none =>
                  refine Or.inr (Or.inr ⟨(savedOf (pyStrip url)).getD "", ?_, ?_, ?_⟩) <;>
                    simp [processOneImage, h1, h2, hcv, hloc, hpr, hby, hsv, hf]
              · exact Or.inl (by simp [processOneImage, h1, h2, hcv, hloc, hpr, hby, hsv])
            · exact Or.inl (by simp [processOneImage, h1, h2, hcv, hloc, hpr, hby])


/-- Loop invariant of reconciliation: the table is the original table
plus fresh rows for this product whose URLs are processed, and every
processed URL is either a snapshot URL of this product or the URL of a
fresh row. -/
def RecInv (pid : Nat) (db0 : List PIRow) (n0 : Nat) (s : RecState) : Prop :=
  ∃ newRows, s.db = db0 ++ newRows ∧ n0 ≤ s.nextId ∧
    (∀ r ∈ newRows, r.pid = pid ∧ n0 ≤ r.id ∧ r.url ∈ s.processed) ∧
    (∀ u ∈ s.processed, u ∈ urlsOf pid db0 ∨ ∃ r ∈ newRows, r.url = u)

theorem RecInv_step {pid : Nat} {db0 : List PIRow} {n0 : Nat} {s : RecState}
    {url : String} {dlOf : String → Option (List Nat)} {savedOf : String → Option String}
    (hinv : RecInv pid db0 n0 s) :
    RecInv pid db0 n0 (processOneImage pid (urlsOf pid db0) dlOf savedOf s url) := by
  obtain ⟨newRows, hdb, hn, hrows, hproc⟩ := hinv
  rcases processOneImage_shape pid (urlsOf pid db0) dlOf savedOf s url with
    ⟨hdb', hn', hp'⟩ | ⟨v, hdb', hn', hp', hv⟩ | ⟨v, hdb', hn', hp'⟩
  · refine ⟨newRows, by rw [hdb', hdb], by rw [hn']; exact hn, ?_, ?_⟩
    · intro r hr
      obtain ⟨a, b, c⟩ := hrows r hr
      exact ⟨a, b, by rw [hp']; exact c⟩
    · intro u hu
      rw [hp'] at hu
      exact hproc u hu
  · refine ⟨newRows, by rw [hdb', hdb], by rw [hn']; exact hn, ?_, ?_⟩
    · intro r hr
      obtain ⟨a, b, c⟩ := hrows r hr
      exact ⟨a, b, by rw [hp']; exact addProcessed_mono v c⟩
    · intro u hu
      rw [hp'] at hu
      rcases mem_addProcessed hu with rfl | hu'
      · rcases hv with hv | ⟨r, hrdb, hrpid, hrurl⟩
        · exact Or.inl hv
        · rw [hdb] at hrdb
          rcases List.mem_append.mp hrdb with h | h
          · exact Or.inl (hrurl ▸ mem_urlsOf h hrpid)
          · exact Or.inr ⟨r, h, hrurl⟩
      · exact hproc u hu'
  · refine ⟨newRows ++ [⟨s.nextId, pid, v⟩], ?_, ?_, ?_, ?_⟩
    · rw [hdb', hdb, List.append_assoc]
    · rw [hn']
      exact Nat.le_succ_of_le hn
    · intro r hr
      rcases List.mem_append.mp hr with h | h
      · obtain ⟨a, b, c⟩ := hrows r h
        exact ⟨a, b, by rw [hp']; exact addProcessed_mono v c⟩
      · rw [List.mem_singleton] at h
        subst h
        exact ⟨rfl, hn, by rw [hp']; exact addProcessed_self _ _⟩
    · intro u hu
      rw [hp'] at hu
      rcases mem_addProcessed hu with rfl | hu'
      · exact Or.inr ⟨⟨s.nextId, pid, u⟩,
          List.mem_append_right _ (List.mem_singleton.mpr rfl), rfl⟩
      · rcases hproc u hu' with h | ⟨r, hr, hru⟩
        · exact Or.inl h
        · exact Or.inr ⟨r, List.mem_append_left _ hr, hru⟩

theorem RecInv_loop (pid : Nat) (db0 : List PIRow) (n0 : Nat)
    (dlOf : String → Option (List Nat)) (savedOf : String → Option String) :
    ∀ (urls : List String) (s : RecState), RecInv pid db0 n0 s →
      RecInv pid db0 n0 (processImagesLoop pid (urlsOf pid db0) dlOf savedOf s urls) := by
  intro urls
  induction urls with
  | nil => intro s h; exact h
  | cons u us ih =>
    intro s h
    exact ih _ (RecInv_step h)


/-- After the deletion sweep, the URLs stored for the product are exactly
the processed URLs. -/
theorem reconcile_final {pid : Nat} {db : List PIRow} {nextId : Nat} {S : RecState}
    (hid : ∀ r ∈ db, r.id < nextId)
    (hnodup : (db.map PIRow.id).Nodup)
    (hinv : RecInv pid db nextId S) (u : String) :
    u ∈ urlsOf pid (S.db.filter (fun r =>
        r.id ∉ ((db.filter (fun r => r.pid = pid)).filter
          (fun r => r.url ∉ S.processed)).map (fun r => r.id))) ↔
      u ∈ S.processed := by
  obtain ⟨newRows, hdb, hnle, hrows, hproc⟩ := hinv
  have hmem_del : ∀ i, i ∈ ((db.filter (fun r => r.pid = pid)).filter
      (fun r => r.url ∉ S.processed)).map (fun r => r.id) ↔
      ∃ r1, r1 ∈ db ∧ r1.pid = pid ∧ r1.url ∉ S.processed ∧ r1.id = i := by
    intro i
    rw [List.mem_map]
    constructor
    · rintro ⟨r1, hr1, rfl⟩
      rw [List.mem_filter] at hr1
      obtain ⟨hr1a, hr1b⟩ := hr1
      rw [List.mem_filter] at hr1a
      obtain ⟨hr1db, hr1pid⟩ := hr1a
      exact ⟨r1, hr1db, by simpa using hr1pid, by simpa using hr1b, rfl⟩
    · rintro ⟨r1, hr1db, hr1pid, hr1u, rfl⟩
      exact ⟨r1, List.mem_filter.mpr ⟨List.mem_filter.mpr ⟨hr1db, by simpa using hr1pid⟩,
        by simpa using hr1u⟩, rfl⟩
  constructor
  · intro hu
    rw [urlsOf_mem_iff] at hu
    obtain ⟨r, hrmem, hrpid, hru⟩ := hu
    rw [List.mem_filter] at hrmem
    obtain ⟨hrdb, hrkeep⟩ := hrmem
    have hrkeep' : r.id ∉ ((db.filter (fun r => r.pid = pid)).filter
        (fun r => r.url ∉ S.processed)).map (fun r => r.id) := by
      simpa using hrkeep
    rw [hdb] at hrdb
    rcases List.mem_append.mp hrdb with hin | hin
    · by_contra hnp
      exact hrkeep' ((hmem_del r.id).mpr ⟨r, hin, hrpid, fun hc => hnp (hru ▸ hc), rfl⟩)
    · obtain ⟨-, -, hpr⟩ := hrows r hin
      exact hru ▸ hpr
  · intro hu
    rcases hproc u hu with h | ⟨r, hrnew, hru⟩
    · rw [urlsOf_mem_iff] at h
      obtain ⟨r0, hr0db, hr0pid, hr0u⟩ := h
      refine urlsOf_mem_iff.mpr ⟨r0, ?_, hr0pid, hr0u⟩
      rw [List.mem_filter]
      refine ⟨by rw [hdb]; exact List.mem_append_left _ hr0db, ?_⟩
      have hnotin : r0.id ∉ ((db.filter (fun r => r.pid = pid)).filter
          (fun r => r.url ∉ S.processed)).map (fun r => r.id) := by
        intro hc
        obtain ⟨r1, hr1db, hr1pid, hr1u, hr1id⟩ := (hmem_del r0.id).mp hc
        have heq : r1 = r0 := List.inj_on_of_nodup_map hnodup hr1db hr0db hr1id
        rw [heq, hr0u] at hr1u
        exact hr1u hu
      simpa using hnotin
    · refine urlsOf_mem_iff.mpr ⟨r, ?_, (hrows r hrnew).1, hru⟩
      rw [List.mem_filter]
      refine ⟨by rw [hdb]; exact List.mem_append_right _ hrnew, ?_⟩
      have hge : nextId ≤ r.id := (hrows r hrnew).2.1
      have hnotin : r.id ∉ ((db.filter (fun r => r.pid = pid)).filter
          (fun r => r.url ∉ S.processed)).map (fun r => r.id) := by
        intro hc
        obtain ⟨r1, hr1db, -, -, hr1id⟩ := (hmem_del r.id).mp hc
        have := hid r1 hr1db
        rw [hr1id] at this
        exact absurd (Nat.lt_of_le_of_lt hge this) (Nat.lt_irrefl _)
      simpa using hnotin


/-- **C3 (amended)**  Reconciliation exactness for rows with at least one
image link: given a table whose row ids are unique and below the next
surrogate id, after `_process_product_images` the set of URLs stored for
the product equals exactly the set of successfully resolved
(`processed_local_urls`) URLs of the current row; per-link resolution or
download failures only shrink the processed set and never stop the other
links or the deletion sweep.  (A row with an empty link list is excluded:
the source returns early and deletes nothing — see the counterexample.) -/
theorem C3_reconciliation_exactness (pid : Nat) (image_urls : List String)
    (dlOf : String → Option (List Nat)) (savedOf : String → Option String)
    (db : List PIRow) (nextId : Nat)
    (hne : image_urls ≠ [])
    (hid : ∀ r ∈ db, r.id < nextId)
    (hnodup : (db.map PIRow.id).Nodup) :
    ∀ u, u ∈ urlsOf pid (process_product_images pid image_urls dlOf savedOf db nextId).db
      ↔ u ∈ (process_product_images pid image_urls dlOf savedOf db nextId).processed := by
  intro u
  have hempty : image_urls.isEmpty = false := by
    cases image_urls with
    | nil => exact absurd rfl hne
    | cons a l => rfl
  simp only [process_product_images, hempty, Bool.false_eq_true, if_false]
  exact reconcile_final hid hnodup
    (RecInv_loop pid db nextId dlOf savedOf (pyDedup image_urls) ⟨db, nextId, [], []⟩
      ⟨[], by simp, Nat.le_refl _, by simp, by simp⟩) u

/-- **C3 counterexample**: on a row whose link list is empty the source
returns before the snapshot/deletion logic (lines 332-334), so a
previously stored image survives although the row's resolved set is
empty — the stored set (one URL) differs from the resolved set (empty),
refuting exactness as universally stated. -/
theorem C3_counterexample :
    (process_product_images 7 [] (fun _ => some [1])
        (fun _ => some "/api/assets/produtos/1.jpg")
        [⟨1, 7, "/api/assets/produtos/old.jpg"⟩] 2).processed = [] ∧
    urlsOf 7 (process_product_images 7 [] (fun _ => some [1])
        (fun _ => some "/api/assets/produtos/1.jpg")
        [⟨1, 7, "/api/assets/produtos/old.jpg"⟩] 2).db
      = ["/api/assets/produtos/old.jpg"] := by
  exact ⟨rfl, rfl⟩

/-- Witness for the amended C3 at a concrete one-link row over a table
holding one stale row: the new URL is stored iff processed (and it is),
and the stale URL is gone. -/
theorem C3_reconciliation_exactness_witness :
    ("/api/assets/produtos/new.jpg" ∈ urlsOf 7 (process_product_images 7
        ["https://drive.google.com/open?id=ABC"] (fun _ => some [1])
        (fun _ => some "/api/assets/produtos/new.jpg")
        [⟨1, 7, "/api/assets/produtos/old.jpg"⟩] 2).db
      ↔ "/api/assets/produtos/new.jpg" ∈ (process_product_images 7
        ["https://drive.google.com/open?id=ABC"] (fun _ => some [1])
        (fun _ => some "/api/assets/produtos/new.jpg")
        [⟨1, 7, "/api/assets/produtos/old.jpg"⟩] 2).processed) ∧
    ("/api/assets/produtos/old.jpg" ∈ urlsOf 7 (process_product_images 7
        ["https://drive.google.com/open?id=ABC"] (fun _ => some [1])
        (fun _ => some "/api/assets/produtos/new.jpg")
        [⟨1, 7, "/api/assets/produtos/old.jpg"⟩] 2).db
      ↔ "/api/assets/produtos/old.jpg" ∈ (process_product_images 7
        ["https://drive.google.com/open?id=ABC"] (fun _ => some [1])
        (fun _ => some "/api/assets/produtos/new.jpg")
        [⟨1, 7, "/api/assets/produtos/old.jpg"⟩] 2).processed) :=
  ⟨C3_reconciliation_exactness 7 ["https://drive.google.com/open?id=ABC"]
      (fun _ => some [1]) (fun _ => some "/api/assets/produtos/new.jpg")
      [⟨1, 7, "/api/assets/produtos/old.jpg"⟩] 2
      (by decide) (by decide) (by decide) "/api/assets/produtos/new.jpg",
   C3_reconciliation_exactness 7 ["https://drive.google.com/open?id=ABC"]
      (fun _ => some [1]) (fun _ => some "/api/assets/produtos/new.jpg")
      [⟨1, 7, "/api/assets/produtos/old.jpg"⟩] 2
      (by decide) (by decide) (by decide) "/api/assets/produtos/old.jpg"⟩

/-- **C4 (amended)**  No persistent fallback before fetching: (1) in the
spreadsheet-upload run, every in-run cache miss goes straight to the
network — the first emitted external event is the download; no catalog
is consulted (the loop has no access to one); (2) in the
create-product reconciliation, a non-local link not yet processed is
always downloaded first — the `get_by_url` catalog check runs only after
a successful download and local save; (3) and when that check finds the
URL already recorded for the product it suppresses only the duplicate
row insert, not the download that already happened. -/
theorem C4_no_persistent_fallback_before_fetch :
    (∀ (sha1hex : String → String) (cache : List (String × String)) (st : ImgStep)
        (k : String), stepKey sha1hex st = some k →
        strTruthy (List.lookup k cache) = false →
        ∃ dl, convert_drive_link st.raw = some dl ∧
          (processImage sha1hex cache st).2.2.head? = some (UpEv.fetch k dl)) ∧
    (∀ (pid : Nat) (exU : List String) (dlOf : String → Option (List Nat))
        (savedOf : String → Option String) (s : RecState) (url dl : String),
        pyStrip url ≠ "" →
        (pyStartsWith (pyStrip url) "http://" || pyStartsWith (pyStrip url) "https://") = true →
        convert_drive_link (pyStrip url) = some dl →
        isLocalUrl dl = false →
        pyStrip url ∉ s.processed →
        (processOneImage pid exU dlOf savedOf s url).events
          = s.events ++ [RecEv.fetch dl]) ∧
    (∀ (pid : Nat) (exU : List String) (dlOf : String → Option (List Nat))
        (savedOf : String → Option String) (s : RecState) (url dl : String) (r : PIRow),
        pyStrip url ≠ "" →
        (pyStartsWith (pyStrip url) "http://" || pyStartsWith (pyStrip url) "https://") = true →
        convert_drive_link (pyStrip url) = some dl →
        isLocalUrl dl = false →
        pyStrip url ∉ s.processed →
        bytesTruthy (dlOf dl) = true →
        strTruthy (savedOf (pyStrip url)) = true →
        s.db.find? (fun r => r.url = (savedOf (pyStrip url)).getD "") = some r →
        r.pid = pid →
        (processOneImage pid exU dlOf savedOf s url).db = s.db ∧
        (processOneImage pid exU dlOf savedOf s url).events
          = s.events ++ [RecEv.fetch dl]) := by
  refine ⟨?_, ?_, ?_⟩
  · intro sha1hex cache st k hk hc
    cases h : convert_drive_link st.raw with
    | none => simp [stepKey, h] at hk
    | some dl =>
      refine ⟨dl, rfl, ?_⟩
      simp only [stepKey, h] at hk
      by_cases hs : (containsSub "supabase.co" dl || containsSub "supabase" (pyLower dl)) = true
      · rw [if_pos hs] at hk; simp at hk
      · rw [if_neg hs] at hk
        have hkey : image_key sha1hex st.raw dl = k := by simpa using hk
        by_cases hf : bytesTruthy st.fetchR = true
        · by_cases hu : strTruthy st.uploadR = true
          · simp [processImage, h, hs, hkey, hc, hf, hu]
          · simp [processImage, h, hs, hkey, hc, hf, hu]
        · simp [processImage, h, hs, hkey, hc, hf]
  · intro pid exU dlOf savedOf s url dl h1 h2 hcv hloc hpr
    by_cases hby : bytesTruthy (dlOf dl) = true
    · by_cases hsv : strTruthy (savedOf (pyStrip url)) = true
      · cases hf : s.db.find? (fun r => r.url = (savedOf (pyStrip url)).getD "") with
        | some r =>
          by_cases hrp : r.pid = pid
          · simp [processOneImage, h1, h2, hcv, hloc, hpr, hby, hsv, hf, hrp]
          · simp [processOneImage, h1, h2, hcv, hloc, hpr, hby, hsv, hf, hrp]
        | none => simp [processOneImage, h1, h2, hcv, hloc, hpr, hby, hsv, hf]
      · simp [processOneImage, h1, h2, hcv, hloc, hpr, hby, hsv]
    · simp [processOneImage, h1, h2, hcv, hloc, hpr, hby]
  · intro pid exU dlOf savedOf s url dl r h1 h2 hcv hloc hpr hby hsv hf hrp
    constructor <;> simp [processOneImage, h1, h2, hcv, hloc, hpr, hby, hsv, hf, hrp]

/-- Witness for the amended C4: a concrete cache miss downloads first,
and a concrete already-recorded URL still downloads but inserts no row. -/
theorem C4_no_persistent_fallback_before_fetch_witness :
    (∃ dl, convert_drive_link "https://drive.google.com/open?id=ABC" = some dl ∧
      (processImage (fun _ => "h") []
        ⟨"https://drive.google.com/open?id=ABC", some [7], some "image/jpeg",
          some "https://pub/x.jpg"⟩).2.2.head? = some (UpEv.fetch "drive_ABC" dl)) ∧
    ((processOneImage 7 [] (fun _ => some [1]) (fun _ => some "/api/assets/produtos/a.jpg")
        ⟨[⟨1, 7, "/api/assets/produtos/a.jpg"⟩], 2, [], []⟩
        "https://drive.google.com/open?id=ABC").db
      = [⟨1, 7, "/api/assets/produtos/a.jpg"⟩] ∧
     (processOneImage 7 [] (fun _ => some [1]) (fun _ => some "/api/assets/produtos/a.jpg")
        ⟨[⟨1, 7, "/api/assets/produtos/a.jpg"⟩], 2, [], []⟩
        "https://drive.google.com/open?id=ABC").events
      = [] ++ [RecEv.fetch "https://drive.google.com/uc?export=download&id=ABC"]) :=
  ⟨C4_no_persistent_fallback_before_fetch.1 (fun _ => "h") []
      ⟨"https://drive.google.com/open?id=ABC", some [7], some "image/jpeg",
        some "https://pub/x.jpg"⟩ "drive_ABC" (by decide) (by decide),
   C4_no_persistent_fallback_before_fetch.2.2 7 [] (fun _ => some [1])
      (fun _ => some "/api/assets/produtos/a.jpg")
      ⟨[⟨1, 7, "/api/assets/produtos/a.jpg"⟩], 2, [], []⟩
      "https://drive.google.com/open?id=ABC"
      "https://drive.google.com/uc?export=download&id=ABC"
      ⟨1, 7, "/api/assets/produtos/a.jpg"⟩
      (by decide) (by decide) (by decide) (by decide) (by decide) (by decide)
      (by decide) (by decide) (by decide)⟩


/-! ## DriveService.download_image_with_meta: the retrying fetcher

Embedding of `DriveService.download_image_with_meta` (`drive_service.py`
90-169).  The HTTP world is an oracle `behavior` mapping the attempt
number to the outcome of `requests.get` + `raise_for_status`: a streamed
response (Content-Type header and body chunks), an `HTTPError` with its
status code, a timeout, a connection error, another `RequestException`,
or an unexpected exception.  The function's observables — the returned
pair, the `time.sleep` durations, the number of attempts and the logged
tags — are all collected in the result. -/

/-- Outcome of one `requests.get(...)`/`raise_for_status()` attempt. -/
inductive AttemptOutcome where
  | response (contentType : String) (chunks : List (List Nat))
  | httpError (status : Option Nat)
  | timeout
  | connError
  | requestError
  | otherError
deriving Repr, DecidableEq

/-- The logger tags of the fetcher, in emission order. -/
inductive LogTag where
  | attempt
  | notImage
  | tooLarge
  | downloadOk
  | httpErr (retryable : Bool)
  | netErr
  | reqErr
  | unexpectedErr
  | downloadFailed
deriving Repr, DecidableEq

/-- Everything a fetch makes observable. -/
structure FetchResult where
  bytes : Option (List Nat)
  contentType : Option String
  sleeps : List Nat
  attempts : Nat
  log : List LogTag
deriving Repr, DecidableEq

/-- `(resp.headers.get('Content-Type', '') or '').split(';')[0].strip().lower()`. -/
def normalizeCT (ct : String) : String :=
  pyLower (pyStrip (String.mk (ct.data.takeWhile (fun c => c ≠ ';'))))

/-- The body-streaming loop (lines 122-133): empty chunks are skipped,
the size accumulator is checked against `max_bytes` after each chunk, and
on success the chunks are joined. -/
def readBody (maxBytes : Nat) : Nat → List (List Nat) → Option (List Nat)
  | _, [] => some []
  | size, c :: cs =>
    if c.isEmpty then readBody maxBytes size cs
    else if maxBytes < size + c.length then none
    else
      match readBody maxBytes (size + c.length) cs with
      | none => none
      | some rest => some (c ++ rest)

/-- `status_code in (429, 500, 502, 503, 504)`. -/
def retryableStatus : Option Nat → Bool
  | some s => s = 429 || s = 500 || s = 502 || s = 503 || s = 504
  | none => false

/-- The attempt loop (lines 109-166) over the remaining attempt numbers:
`a :: rest` means the loop is at attempt `a` and `rest.isEmpty` means
`attempt == max_attempts`.  Retryable failures with attempts left sleep
`min(2 ** (attempt - 1), 10)` and continue; every other exit returns
from inside the loop; an exhausted list is the post-loop return of line
168-169. -/
def runAttempts (behavior : Nat → AttemptOutcome) (maxBytes : Nat) :
    List Nat → FetchResult
  | [] => ⟨none, none, [], 0, [LogTag.downloadFailed]⟩
  | a :: rest =>
    match behavior a with
    | AttemptOutcome.response ct chunks =>
      if !(pyStartsWith (normalizeCT ct) "image/") then
        ⟨none, none, [], 1, [LogTag.attempt, LogTag.notImage]⟩
      else
        match readBody maxBytes 0 chunks with
        | none => ⟨none, none, [], 1, [LogTag.attempt, LogTag.tooLarge]⟩
        | some bytes =>
          ⟨some bytes, some (normalizeCT ct), [], 1, [LogTag.attempt, LogTag.downloadOk]⟩
    | AttemptOutcome.httpError st =>
      if retryableStatus st && !rest.isEmpty then
        let r := runAttempts behavior maxBytes rest
        ⟨r.bytes, r.contentType, min (2 ^ (a - 1)) 10 :: r.sleeps, r.attempts + 1,
          LogTag.attempt :: LogTag.httpErr true :: r.log⟩
      else
        ⟨none, none, [], 1, [LogTag.attempt, LogTag.httpErr (retryableStatus st)]⟩
    | AttemptOutcome.timeout =>
      if !rest.isEmpty then
        let r := runAttempts behavior maxBytes rest
        ⟨r.bytes, r.contentType, min (2 ^ (a - 1)) 10 :: r.sleeps, r.attempts + 1,
          LogTag.attempt :: LogTag.netErr :: r.log⟩
      else
        ⟨none, none, [], 1, [LogTag.attempt, LogTag.netErr]⟩
    | AttemptOutcome.connError =>
      if !rest.isEmpty then
        let r := runAttempts behavior maxBytes rest
        ⟨r.bytes, r.contentType, min (2 ^ (a - 1)) 10 :: r.sleeps, r.attempts + 1,
          LogTag.attempt :: LogTag.netErr :: r.log⟩
      else
        ⟨none, none, [], 1, [LogTag.attempt, LogTag.netErr]⟩
    | AttemptOutcome.requestError =>
      ⟨none, none, [], 1, [LogTag.attempt, LogTag.reqErr]⟩
    | AttemptOutcome.otherError =>
      ⟨none, none, [], 1, [LogTag.attempt, LogTag.unexpectedErr]⟩

/-- Default `max_attempts`. -/
def DEFAULT_MAX_ATTEMPTS : Nat := 4

/-- Default `max_bytes` (15 MB). -/
def DEFAULT_MAX_BYTES : Nat := 15000000

/-- `DriveService.download_image_with_meta`: attempts run from `1` to
`max_attempts` inclusive. -/
def download_image_with_meta (behavior : Nat → AttemptOutcome)
    (maxAttempts maxBytes : Nat) : FetchResult :=
  runAttempts behavior maxBytes (List.range' 1 maxAttempts)

/-- Failing outcomes the code does not retry: a non-retryable HTTP
status, a non-image Content-Type, a body over the byte ceiling, any
other `RequestException`, or an unexpected exception. -/
def nonretryableFailing (maxBytes : Nat) : AttemptOutcome → Bool
  | AttemptOutcome.response ct chunks =>
    !(pyStartsWith (normalizeCT ct) "image/") || (readBody maxBytes 0 chunks).isNone
  | AttemptOutcome.httpError st => !retryableStatus st
  | AttemptOutcome.timeout => false
  | AttemptOutcome.connError => false
  | AttemptOutcome.requestError => true
  | AttemptOutcome.otherError => true


/-! ### Fetcher lemmas -/

/-- One retryable-503 step with attempts remaining: sleep and recurse. -/
theorem runAttempts_retry503_step (behavior : Nat → AttemptOutcome) (maxBytes a : Nat)
    (rest : List Nat) (hb : behavior a = AttemptOutcome.httpError (some 503))
    (hne : rest.isEmpty = false) :
    runAttempts behavior maxBytes (a :: rest)
      = ⟨(runAttempts behavior maxBytes rest).bytes,
         (runAttempts behavior maxBytes rest).contentType,
         min (2 ^ (a - 1)) 10 :: (runAttempts behavior maxBytes rest).sleeps,
         (runAttempts behavior maxBytes rest).attempts + 1,
         LogTag.attempt :: LogTag.httpErr true
           :: (runAttempts behavior maxBytes rest).log⟩ := by
  simp [runAttempts, hb, retryableStatus, hne]

theorem runAttempts_all503 (behavior : Nat → AttemptOutcome) (maxBytes : Nat)
    (hb : ∀ n, behavior n = AttemptOutcome.httpError (some 503)) :
    ∀ (n : Nat), ∀ (a : Nat), 1 ≤ n →
      (runAttempts behavior maxBytes (List.range' a n)).attempts = n ∧
      (runAttempts behavior maxBytes (List.range' a n)).sleeps
        = (List.range (n - 1)).map (fun i => min (2 ^ (a + i - 1)) 10) ∧
      (runAttempts behavior maxBytes (List.range' a n)).bytes = none ∧
      (runAttempts behavior maxBytes (List.range' a n)).contentType = none := by
  intro n
  induction n with
  | zero => intro a h; exact absurd h (by decide)
  | succ k ih =>
    intro a hk
    cases k with
    | zero =>
      simp [List.range', runAttempts, hb a, retryableStatus]
    | succ m =>
      obtain ⟨iha, ihs, ihb, ihc⟩ := ih (a + 1) (Nat.succ_le_succ (Nat.zero_le m))
      have hrange : List.range' a (m + 2) = a :: List.range' (a + 1) (m + 1) := by
        simp [List.range']
      have hne : (List.range' (a + 1) (m + 1)).isEmpty = false := by
        simp [List.range']
      rw [hrange, runAttempts_retry503_step behavior maxBytes a _ (hb a) hne]
      refine ⟨?_, ?_, ?_, ?_⟩
      · show (runAttempts behavior maxBytes (List.range' (a + 1) (m + 1))).attempts + 1
          = m + 1 + 1
        rw [iha]
      · show min (2 ^ (a - 1)) 10
            :: (runAttempts behavior maxBytes (List.range' (a + 1) (m + 1))).sleeps
          = (List.range (m + 1 + 1 - 1)).map (fun i => min (2 ^ (a + i - 1)) 10)
        rw [ihs]
        rw [show (m + 1 + 1 - 1) = m + 1 from by omega,
          show (m + 1 - 1) = m from by omega,
          List.range_succ_eq_map, List.map_cons, List.map_map]
        refine congrArg₂ _ (by rw [show a + 0 - 1 = a - 1 from by omega]) ?_
        apply List.map_congr_left
        intro i hi
        have harith : a + Nat.succ i - 1 = a + 1 + i - 1 := by omega
        simp [Function.comp, harith]
      · show (runAttempts behavior maxBytes (List.range' (a + 1) (m + 1))).bytes = none
        exact ihb
      · show (runAttempts behavior maxBytes (List.range' (a + 1) (m + 1))).contentType = none
        exact ihc

/-- Every result is either a failure pair `(None, None)` or a success
pair with bytes and content type. -/
theorem runAttempts_dichotomy (behavior : Nat → AttemptOutcome) (maxBytes : Nat) :
    ∀ l : List Nat,
      ((runAttempts behavior maxBytes l).bytes = none ∧
       (runAttempts behavior maxBytes l).contentType = none) ∨
      (∃ bs ct, (runAttempts behavior maxBytes l).bytes = some bs ∧
        (runAttempts behavior maxBytes l).contentType = some ct) := by
  intro l
  induction l with
  | nil => exact Or.inl ⟨rfl, rfl⟩
  | cons a rest ih =>
    cases hb : behavior a with
    | response ct chunks =>
      by_cases hn : (!(pyStartsWith (normalizeCT ct) "image/")) = true
      · exact Or.inl (by simp [runAttempts, hb, hn])
      · cases hr : readBody maxBytes 0 chunks with
        | none => exact Or.inl (by simp [runAttempts, hb, hn, hr])
        | some bytes =>
          exact Or.inr ⟨bytes, normalizeCT ct, by simp [runAttempts, hb, hn, hr]⟩
    | httpError st =>
      by_cases hrt : (retryableStatus st && !rest.isEmpty) = true
      · have h1 : (runAttempts behavior maxBytes (a :: rest)).bytes
            = (runAttempts behavior maxBytes rest).bytes := by
          simp [runAttempts, hb, hrt]
        have h2 : (runAttempts behavior maxBytes (a :: rest)).contentType
            = (runAttempts behavior maxBytes rest).contentType := by
          simp [runAttempts, hb, hrt]
        rw [h1, h2]
        exact ih
      · exact Or.inl (by simp [runAttempts, hb, hrt])
    | timeout =>
      by_cases hrt : (!rest.isEmpty) = true
      · have h1 : (runAttempts behavior maxBytes (a :: rest)).bytes
            = (runAttempts behavior maxBytes rest).bytes := by
          simp [runAttempts, hb, hrt]
        have h2 : (runAttempts behavior maxBytes (a :: rest)).contentType
            = (runAttempts behavior maxBytes rest).contentType := by
          simp [runAttempts, hb, hrt]
        rw [h1, h2]
        exact ih
      · exact Or.inl (by simp [runAttempts, hb, hrt])
    | connError =>
      by_cases hrt : (!rest.isEmpty) = true
      · have h1 : (runAttempts behavior maxBytes (a :: rest)).bytes
            = (runAttempts behavior maxBytes rest).bytes := by
          simp [runAttempts, hb, hrt]
        have h2 : (runAttempts behavior maxBytes (a :: rest)).contentType
            = (runAttempts behavior maxBytes rest).contentType := by
          simp [runAttempts, hb, hrt]
        rw [h1, h2]
        exact ih
      · exact Or.inl (by simp [runAttempts, hb, hrt])
    | requestError => exact Or.inl (by simp [runAttempts, hb])
    | otherError => exact Or.inl (by simp [runAttempts, hb])


/-- **C5**  Retry boundedness: when every attempt yields HTTP 503, the
fetcher makes exactly `max_attempts` attempts, sleeping
`min(2^(attempt-1), 10)` seconds after each non-final attempt (so
`1, 2, 4, ...` capped at `10`), and finally returns the failure pair
instead of retrying further; with the default of 4 attempts the sleeps
are exactly `[1, 2, 4]`. -/
theorem C5_retry_boundedness :
    (∀ (behavior : Nat → AttemptOutcome) (maxAttempts maxBytes : Nat),
      (∀ n, behavior n = AttemptOutcome.httpError (some 503)) →
      1 ≤ maxAttempts →
      (download_image_with_meta behavior maxAttempts maxBytes).attempts = maxAttempts ∧
      (download_image_with_meta behavior maxAttempts maxBytes).sleeps
        = (List.range (maxAttempts - 1)).map (fun i => min (2 ^ i) 10) ∧
      (download_image_with_meta behavior maxAttempts maxBytes).bytes = none ∧
      (download_image_with_meta behavior maxAttempts maxBytes).contentType = none) ∧
    (∀ (behavior : Nat → AttemptOutcome) (maxBytes : Nat),
      (∀ n, behavior n = AttemptOutcome.httpError (some 503)) →
      (download_image_with_meta behavior DEFAULT_MAX_ATTEMPTS maxBytes).attempts = 4 ∧
      (download_image_with_meta behavior DEFAULT_MAX_ATTEMPTS maxBytes).sleeps
        = [1, 2, 4]) := by
  have hmain : ∀ (behavior : Nat → AttemptOutcome) (maxAttempts maxBytes : Nat),
      (∀ n, behavior n = AttemptOutcome.httpError (some 503)) →
      1 ≤ maxAttempts →
      (download_image_with_meta behavior maxAttempts maxBytes).attempts = maxAttempts ∧
      (download_image_with_meta behavior maxAttempts maxBytes).sleeps
        = (List.range (maxAttempts - 1)).map (fun i => min (2 ^ i) 10) ∧
      (download_image_with_meta behavior maxAttempts maxBytes).bytes = none ∧
      (download_image_with_meta behavior maxAttempts maxBytes).contentType = none := by
    intro behavior maxAttempts maxBytes hb hge
    obtain ⟨ha, hs, hbn, hc⟩ := runAttempts_all503 behavior maxBytes hb maxAttempts 1 hge
    refine ⟨ha, ?_, hbn, hc⟩
    rw [download_image_with_meta, hs]
    apply List.map_congr_left
    intro i hi
    rw [show 1 + i - 1 = i from by omega]
  refine ⟨hmain, ?_⟩
  intro behavior maxBytes hb
  obtain ⟨ha, hs, -, -⟩ := hmain behavior DEFAULT_MAX_ATTEMPTS maxBytes hb (by decide)
  refine ⟨ha, ?_⟩
  rw [hs]
  rfl

/-- Witness for C5 with the everywhere-503 oracle at the defaults. -/
theorem C5_retry_boundedness_witness :
    (download_image_with_meta (fun _ => AttemptOutcome.httpError (some 503))
        DEFAULT_MAX_ATTEMPTS DEFAULT_MAX_BYTES).attempts = 4 ∧
    (download_image_with_meta (fun _ => AttemptOutcome.httpError (some 503))
        DEFAULT_MAX_ATTEMPTS DEFAULT_MAX_BYTES).sleeps = [1, 2, 4] :=
  C5_retry_boundedness.2 (fun _ => AttemptOutcome.httpError (some 503))
    DEFAULT_MAX_BYTES (fun _ => rfl)

/-- **C6**  Retry predicate exclusivity: a failing outcome outside
{HTTP 429/500/502/503/504, connect/read timeout, connection error} —
including HTTP 403/404, a non-image Content-Type and an over-the-ceiling
body — terminates the fetch at the attempt that detects it, with no
sleep and no further attempt; conversely, whenever the fetcher moves
past the first attempt, the first outcome was one of the retryable
ones. -/
theorem C6_retry_predicate_exclusivity :
    (∀ (behavior : Nat → AttemptOutcome) (maxBytes : Nat) (a : Nat) (rest : List Nat),
      nonretryableFailing maxBytes (behavior a) = true →
      (runAttempts behavior maxBytes (a :: rest)).attempts = 1 ∧
      (runAttempts behavior maxBytes (a :: rest)).sleeps = [] ∧
      (runAttempts behavior maxBytes (a :: rest)).bytes = none ∧
      (runAttempts behavior maxBytes (a :: rest)).contentType = none) ∧
    (∀ (behavior : Nat → AttemptOutcome) (maxAttempts maxBytes : Nat),
      2 ≤ (download_image_with_meta behavior maxAttempts maxBytes).attempts →
      (behavior 1 = AttemptOutcome.timeout ∨ behavior 1 = AttemptOutcome.connError ∨
        ∃ s, behavior 1 = AttemptOutcome.httpError (some s) ∧
          (s = 429 ∨ s = 500 ∨ s = 502 ∨ s = 503 ∨ s = 504))) := by
  constructor
  · intro behavior maxBytes a rest hnr
    cases hb : behavior a with
    | response ct chunks =>
      rw [hb, nonretryableFailing] at hnr
      by_cases hn : (!(pyStartsWith (normalizeCT ct) "image/")) = true
      · simp [runAttempts, hb, hn]
      · cases hr : readBody maxBytes 0 chunks with
        | none => simp [runAttempts, hb, hn, hr]
        | some bytes =>
          rw [Bool.or_eq_true] at hnr
          rcases hnr with hnr | hnr
          · exact absurd hnr hn
          · rw [hr] at hnr
            exact absurd hnr (by simp)
    | httpError st =>
      rw [hb, nonretryableFailing] at hnr
      have hrt : retryableStatus st = false := by
        cases hx : retryableStatus st
        · rfl
        · rw [hx] at hnr; exact absurd hnr (by simp)
      simp [runAttempts, hb, hrt]
    | timeout => rw [hb, nonretryableFailing] at hnr; exact absurd hnr (by simp)
    | connError => rw [hb, nonretryableFailing] at hnr; exact absurd hnr (by simp)
    | requestError => simp [runAttempts, hb]
    | otherError => simp [runAttempts, hb]
  · intro behavior maxAttempts maxBytes h2
    cases maxAttempts with
    | zero => exact absurd h2 (by simp [download_image_with_meta, List.range', runAttempts])
    | succ m =>
      have hrange : List.range' 1 (m + 1) = 1 :: List.range' 2 m := by
        simp [List.range']
      rw [download_image_with_meta, hrange] at h2
      cases hb : behavior 1 with
      | response ct chunks =>
        simp only [runAttempts, hb] at h2
        by_cases hn : (!(pyStartsWith (normalizeCT ct) "image/")) = true
        · rw [if_pos hn] at h2
          simp at h2
        · rw [if_neg hn] at h2
          cases hr : readBody maxBytes 0 chunks with
          | none => rw [hr] at h2; simp at h2
          | some bytes => rw [hr] at h2; simp at h2
      | httpError st =>
        simp only [runAttempts, hb] at h2
        by_cases hrt : (retryableStatus st && !(List.range' 2 m).isEmpty) = true
        · rw [Bool.and_eq_true] at hrt
          cases st with
          | none => rw [retryableStatus] at hrt; exact absurd hrt.1 (by simp)
          | some s =>
            refine Or.inr (Or.inr ⟨s, rfl, ?_⟩)
            have := hrt.1
            rw [retryableStatus] at this
            simp only [Bool.or_eq_true, decide_eq_true_eq] at this
            tauto
        · rw [if_neg hrt] at h2
          simp at h2
      | timeout => exact Or.inl rfl
      | connError => exact Or.inr (Or.inl rfl)
      | requestError =>
        simp only [runAttempts, hb] at h2
        simp at h2
      | otherError =>
        simp only [runAttempts, hb] at h2
        simp at h2

/-- Witness for C6: a 404 at the first of four attempts stops there; a
run that made all four attempts had a retryable first outcome (503). -/
theorem C6_retry_predicate_exclusivity_witness :
    ((runAttempts (fun _ => AttemptOutcome.httpError (some 404)) DEFAULT_MAX_BYTES
        (1 :: [2, 3, 4])).attempts = 1 ∧
     (runAttempts (fun _ => AttemptOutcome.httpError (some 404)) DEFAULT_MAX_BYTES
        (1 :: [2, 3, 4])).sleeps = [] ∧
     (runAttempts (fun _ => AttemptOutcome.httpError (some 404)) DEFAULT_MAX_BYTES
        (1 :: [2, 3, 4])).bytes = none ∧
     (runAttempts (fun _ => AttemptOutcome.httpError (some 404)) DEFAULT_MAX_BYTES
        (1 :: [2, 3, 4])).contentType = none) ∧
    ((fun _ => AttemptOutcome.httpError (some 503)) 1 = AttemptOutcome.timeout ∨
      (fun _ => AttemptOutcome.httpError (some 503)) 1 = AttemptOutcome.connError ∨
      ∃ s, (fun _ => AttemptOutcome.httpError (some 503)) 1
          = AttemptOutcome.httpError (some s) ∧
        (s = 429 ∨ s = 500 ∨ s = 502 ∨ s = 503 ∨ s = 504)) :=
  ⟨C6_retry_predicate_exclusivity.1 (fun _ => AttemptOutcome.httpError (some 404))
      DEFAULT_MAX_BYTES 1 [2, 3, 4] (by decide),
   C6_retry_predicate_exclusivity.2 (fun _ => AttemptOutcome.httpError (some 503))
      DEFAULT_MAX_ATTEMPTS DEFAULT_MAX_BYTES (by decide)⟩

/-- **C7 counterexample**: a non-retryable HTTP 404 and a non-image
Content-Type are different failure classes, yet the fetcher returns the
identical value `(None, None)` for both — the reason tags exist only in
the log, so the failure classes cannot be told apart from the returned
value. -/
theorem C7_counterexample :
    ((download_image_with_meta (fun _ => AttemptOutcome.httpError (some 404))
        DEFAULT_MAX_ATTEMPTS DEFAULT_MAX_BYTES).bytes,
      (download_image_with_meta (fun _ => AttemptOutcome.httpError (some 404))
        DEFAULT_MAX_ATTEMPTS DEFAULT_MAX_BYTES).contentType)
      = ((download_image_with_meta (fun _ => AttemptOutcome.response "text/html" [[1]])
            DEFAULT_MAX_ATTEMPTS DEFAULT_MAX_BYTES).bytes,
         (download_image_with_meta (fun _ => AttemptOutcome.response "text/html" [[1]])
            DEFAULT_MAX_ATTEMPTS DEFAULT_MAX_BYTES).contentType) ∧
    (download_image_with_meta (fun _ => AttemptOutcome.httpError (some 404))
        DEFAULT_MAX_ATTEMPTS DEFAULT_MAX_BYTES).bytes = none ∧
    (download_image_with_meta (fun _ => AttemptOutcome.httpError (some 404))
        DEFAULT_MAX_ATTEMPTS DEFAULT_MAX_BYTES).log
      ≠ (download_image_with_meta (fun _ => AttemptOutcome.response "text/html" [[1]])
          DEFAULT_MAX_ATTEMPTS DEFAULT_MAX_BYTES).log := by
  decide

/-- **C7 (amended)**  Structured success, opaque failure: success returns
the body bytes together with the normalized content type; every failure
path returns the indistinguishable pair `(None, None)` — the class tags
(`http_error`, `net_error`, `content_type_not_image`, `image_too_large`,
`request_error`, `unexpected_error`) are emitted only on the log. -/
theorem C7_structured_outcomes :
    ∀ (behavior : Nat → AttemptOutcome) (maxAttempts maxBytes : Nat),
      ((download_image_with_meta behavior maxAttempts maxBytes).bytes = none ∧
       (download_image_with_meta behavior maxAttempts maxBytes).contentType = none) ∨
      (∃ bs ct, (download_image_with_meta behavior maxAttempts maxBytes).bytes = some bs ∧
        (download_image_with_meta behavior maxAttempts maxBytes).contentType = some ct) :=
  fun behavior maxAttempts maxBytes =>
    runAttempts_dichotomy behavior maxBytes (List.range' 1 maxAttempts)


/-! ## ExcelLoaderService._extract_image_urls: in-cell link extraction

Embedding of `ExcelLoaderService._extract_image_urls`
(`excel_loader_service.py` 268-327), applied to the string form of a
non-null cell.  `json.loads` is the Python standard library; it is
modelled executably for the fragment the code can meet in an image cell:
a JSON string, a flat JSON array of strings (whose comprehension the
code returns) or of other scalars (on which the code's `url.strip()`
raises, propagating out — modelled as `none`), another scalar, or a
parse failure.  Nested arrays/objects and `\uXXXX` escapes are outside
the modelled fragment and classified as parse failures. -/

/-- Result of `json.loads` on a cell, restricted to the shapes the
extraction code distinguishes. -/
inductive JParse where
  | list (elems : List String)
  | jstr (s : String)
  | mixed
  | othervalue
  | fail
deriving Repr, DecidableEq

/-- JSON insignificant whitespace. -/
def jsonWs (c : Char) : Bool :=
  c = ' ' || c = '\t' || c = '\n' || c = '\x0d'

/-- One-character JSON string escapes (`\uXXXX` not modelled). -/
def escChar : Char → Option Char
  | '"' => some '"'
  | '\\' => some '\\'
  | '/' => some '/'
  | 'b' => some '\x08'
  | 'f' => some '\x0c'
  | 'n' => some '\n'
  | 'r' => some '\x0d'
  | 't' => some '\t'
  | _ => none

/-- JSON string body after the opening quote; returns the decoded string
and the remainder after the closing quote. -/
def parseJStr (acc : List Char) : List Char → Option (String × List Char)
  | [] => none
  | c :: cs =>
    if c = '"' then some (String.mk acc.reverse, cs)
    else if c = '\\' then
      match cs with
      | [] => none
      | e :: cs2 =>
        match escChar e with
        | none => none
        | some ec => parseJStr (ec :: acc) cs2
    else parseJStr (c :: acc) cs

/-- A JSON number starting at the input, returning the remainder. -/
def parseNum (l : List Char) : Option (List Char) :=
  let l1 := if l.headD ' ' = '-' then l.tail else l
  let d := l1.takeWhile Char.isDigit
  let r := l1.dropWhile Char.isDigit
  if d.isEmpty then none
  else
    let r2 : Option (List Char) :=
      if r.headD ' ' = '.' then
        if (r.tail.takeWhile Char.isDigit).isEmpty then none
        else some (r.tail.dropWhile Char.isDigit)
      else some r
    match r2 with
    | none => none
    | some r2 =>
      if r2.headD ' ' = 'e' || r2.headD ' ' = 'E' then
        let rs := if r2.tail.headD ' ' = '+' || r2.tail.headD ' ' = '-'
                  then r2.tail.tail else r2.tail
        if (rs.takeWhile Char.isDigit).isEmpty then none
        else some (rs.dropWhile Char.isDigit)
      else some r2

/-- A non-string JSON scalar (`true`/`false`/`null`/number), returning
the remainder. -/
def parseScalar (l : List Char) : Option (List Char) :=
  if "true".data.isPrefixOf l then some (l.drop 4)
  else if "false".data.isPrefixOf l then some (l.drop 5)
  else if "null".data.isPrefixOf l then some (l.drop 4)
  else parseNum l

/-- Array items after the opening bracket (at least one item): collected
string elements, whether all elements were strings, and the remainder
after the closing bracket. -/
def parseItemsLoop : Nat → List String → Bool → List Char →
    Option (List String × Bool × List Char)
  | 0, _, _, _ => none
  | fuel + 1, acc, allStr, l =>
    let l1 := l.dropWhile jsonWs
    if l1.headD ' ' = '"' then
      match parseJStr [] l1.tail with
      | none => none
      | some (s, r) =>
        let r1 := r.dropWhile jsonWs
        if r1.headD ' ' = ',' then parseItemsLoop fuel (s :: acc) allStr r1.tail
        else if r1.headD ' ' = ']' then some ((s :: acc).reverse, allStr, r1.tail)
        else none
    else
      match parseScalar l1 with
      | none => none
      | some r =>
        let r1 := r.dropWhile jsonWs
        if r1.headD ' ' = ',' then parseItemsLoop fuel acc false r1.tail
        else if r1.headD ' ' = ']' then some (acc.reverse, false, r1.tail)
        else none

/-- Model of `json.loads` restricted to the shapes above. -/
def jsonParse (s : String) : JParse :=
  let l := s.data.dropWhile jsonWs
  if l.isEmpty then JParse.fail
  else if l.headD ' ' = '"' then
    match parseJStr [] l.tail with
    | none => JParse.fail
    | some (str, r) =>
      if (r.dropWhile jsonWs).isEmpty then JParse.jstr str else JParse.fail
  else if l.headD ' ' = '[' then
    let l2 := l.tail.dropWhile jsonWs
    if l2.headD ' ' = ']' then
      if (l2.tail.dropWhile jsonWs).isEmpty then JParse.list [] else JParse.fail
    else
      match parseItemsLoop l.length [] true l.tail with
      | none => JParse.fail
      | some (elems, allStr, r) =>
        if (r.dropWhile jsonWs).isEmpty then
          if allStr then JParse.list elems else JParse.mixed
        else JParse.fail
  else
    match parseScalar l with
    | none => JParse.fail
    | some r => if (r.dropWhile jsonWs).isEmpty then JParse.othervalue else JParse.fail

/-- Python `s.endswith(p)`. -/
def pyEndsWith (s p : String) : Bool :=
  List.isSuffixOf p.data s.data

/-- `image_str[1:-1]`. -/
def dropBrackets (s : String) : String :=
  String.mk (s.data.drop 1).dropLast

/-- The separator stage (lines 312-325): split on `;` if present, else
on `,` if present, else the bare string; keep non-blank parts stripped,
then the final cleanup comprehension of line 325. -/
def sepProcess (s : String) : List String :=
  let urls :=
    if s = "" then []
    else if containsSub ";" s then
      (pySplit ';' s).filterMap
        (fun u => if pyStrip u ≠ "" then some (pyStrip u) else none)
    else if containsSub "," s then
      (pySplit ',' s).filterMap
        (fun u => if pyStrip u ≠ "" then some (pyStrip u) else none)
    else [s]
  urls.filterMap (fun u => if u ≠ "" ∧ pyStrip u ≠ "" then some (pyStrip u) else none)

/-- `ExcelLoaderService._extract_image_urls` on the stripped string form
of a non-null cell.  `none` models the uncaught `AttributeError` on a
JSON array with non-string elements. -/
def extract_image_urls (cell : String) : Option (List String) :=
  let image_str := pyStrip cell
  if image_str = "" then some []
  else
    match jsonParse image_str with
    | JParse.list elems =>
      some (elems.filterMap
        (fun u => if u ≠ "" ∧ pyStrip u ≠ "" then some (pyStrip u) else none))
    | JParse.mixed => none
    | JParse.jstr str => some (sepProcess str)
    | JParse.othervalue => some (sepProcess image_str)
    | JParse.fail =>
      some (sepProcess
        (if pyStartsWith image_str "[" && pyEndsWith image_str "]"
         then pyStrip (dropBrackets image_str) else image_str))


/-! ### Extraction lemmas -/

theorem dropWhile_head_false {p : Char → Bool} :
    ∀ (l : List Char) (c : Char), (l.dropWhile p).head? = some c → p c = false := by
  intro l
  induction l with
  | nil => intro c h; simp at h
  | cons a as ih =>
    intro c h
    rw [List.dropWhile_cons] at h
    by_cases hp : p a = true
    · rw [if_pos hp] at h
      exact ih c h
    · rw [if_neg hp] at h
      simp at h
      subst h
      cases hb : p a
      · rfl
      · exact absurd hb hp

theorem dropWhile_eq_self_of_head {p : Char → Bool} {l : List Char}
    (h : ∀ c, l.head? = some c → p c = false) : l.dropWhile p = l := by
  cases l with
  | nil => rfl
  | cons a as =>
    rw [List.dropWhile_cons, if_neg]
    rw [h a rfl]
    simp

/-- Stripping is idempotent. -/
theorem pyStripL_idem (l : List Char) : pyStripL (pyStripL l) = pyStripL l := by
  cases hBe : (l.dropWhile isPySpace).reverse.dropWhile isPySpace with
  | nil =>
    show pyStripL (((l.dropWhile isPySpace).reverse.dropWhile isPySpace).reverse)
      = ((l.dropWhile isPySpace).reverse.dropWhile isPySpace).reverse
    rw [hBe]
    rfl
  | cons b bs =>
    have hBne : (l.dropWhile isPySpace).reverse.dropWhile isPySpace ≠ [] := by
      rw [hBe]; simp
    have hhead : ∀ c,
        (((l.dropWhile isPySpace).reverse.dropWhile isPySpace).reverse).head? = some c →
        isPySpace c = false := by
      intro c hc
      rw [List.head?_reverse] at hc
      obtain ⟨t, ht⟩ := List.dropWhile_suffix (l := (l.dropWhile isPySpace).reverse)
        (p := isPySpace)
      have h2 : ((l.dropWhile isPySpace).reverse).getLast? = some c := by
        rw [← ht, List.getLast?_append_of_ne_nil t hBne]
        exact hc
      rw [← List.head?_reverse, List.reverse_reverse] at h2
      exact dropWhile_head_false l c h2
    have hstep1 : (((l.dropWhile isPySpace).reverse.dropWhile isPySpace).reverse).dropWhile
        isPySpace = ((l.dropWhile isPySpace).reverse.dropWhile isPySpace).reverse :=
      dropWhile_eq_self_of_head hhead
    have hstep2 : ((l.dropWhile isPySpace).reverse.dropWhile isPySpace).dropWhile isPySpace
        = (l.dropWhile isPySpace).reverse.dropWhile isPySpace := by
      apply dropWhile_eq_self_of_head
      intro c hc
      exact dropWhile_head_false _ c hc
    show (((((l.dropWhile isPySpace).reverse.dropWhile isPySpace).reverse).dropWhile
        isPySpace).reverse.dropWhile isPySpace).reverse = _
    rw [hstep1, List.reverse_reverse, hstep2]
    rfl

theorem pyStrip_idem (s : String) : pyStrip (pyStrip s) = pyStrip s := by
  rw [pyStrip, pyStrip]
  rw [show (String.mk (pyStripL s.data)).data = pyStripL s.data from rfl]
  rw [pyStripL_idem]

/-- Every URL produced by the separator stage is non-blank and
stripped. -/
theorem sepProcess_elems {s u : String} (h : u ∈ sepProcess s) :
    u ≠ "" ∧ pyStrip u = u := by
  simp only [sepProcess] at h
  obtain ⟨v, hv, hvu⟩ := List.mem_filterMap.mp h
  by_cases hc : (v ≠ "" ∧ pyStrip v ≠ "")
  · rw [if_pos hc] at hvu
    obtain rfl := Option.some.inj hvu
    exact ⟨hc.2, pyStrip_idem v⟩
  · rw [if_neg hc] at hvu
    exact absurd hvu (by simp)

/-- Every URL the extraction returns is non-blank and stripped. -/
theorem extract_elems {cell : String} {r : List String}
    (h : extract_image_urls cell = some r) : ∀ u ∈ r, u ≠ "" ∧ pyStrip u = u := by
  intro u hu
  simp only [extract_image_urls] at h
  by_cases h0 : pyStrip cell = ""
  · rw [if_pos h0] at h
    obtain rfl := Option.some.inj h
    cases hu
  · rw [if_neg h0] at h
    cases hj : jsonParse (pyStrip cell) with
    | list elems =>
      simp only [hj] at h
      obtain rfl := Option.some.inj h
      obtain ⟨v, hv, hvu⟩ := List.mem_filterMap.mp hu
      by_cases hc : (v ≠ "" ∧ pyStrip v ≠ "")
      · rw [if_pos hc] at hvu
        obtain rfl := Option.some.inj hvu
        exact ⟨hc.2, pyStrip_idem v⟩
      · rw [if_neg hc] at hvu
        exact absurd hvu (by simp)
    | mixed =>
      simp only [hj] at h
      exact Option.noConfusion h
    | jstr str =>
      simp only [hj] at h
      obtain rfl := Option.some.inj h
      exact sepProcess_elems hu
    | othervalue =>
      simp only [hj] at h
      obtain rfl := Option.some.inj h
      exact sepProcess_elems hu
    | fail =>
      simp only [hj] at h
      obtain rfl := Option.some.inj h
      exact sepProcess_elems hu

theorem pyDedupGo_mem :
    ∀ (l seen : List String) (u : String),
      u ∈ pyDedupGo seen l ↔ (u ∈ l ∧ u ∉ seen) := by
  intro l
  induction l with
  | nil => intro seen u; simp [pyDedupGo]
  | cons x xs ih =>
    intro seen u
    rw [pyDedupGo]
    by_cases hx : x ∈ seen
    · rw [if_pos hx, ih seen u]
      constructor
      · rintro ⟨h1, h2⟩
        exact ⟨List.mem_cons_of_mem _ h1, h2⟩
      · rintro ⟨h1, h2⟩
        rcases List.mem_cons.mp h1 with rfl | h1
        · exact absurd hx h2
        · exact ⟨h1, h2⟩
    · rw [if_neg hx]
      constructor
      · intro hm
        rcases List.mem_cons.mp hm with rfl | hm
        · exact ⟨List.mem_cons_self _ _, hx⟩
        · obtain ⟨h1, h2⟩ := (ih (x :: seen) u).mp hm
          exact ⟨List.mem_cons_of_mem _ h1,
            fun hc => h2 (List.mem_cons_of_mem _ hc)⟩
      · rintro ⟨h1, h2⟩
        rcases List.mem_cons.mp h1 with rfl | h1
        · exact List.mem_cons_self _ _
        · by_cases hux : u = x
          · subst hux
            exact List.mem_cons_self _ _
          · refine List.mem_cons_of_mem _ ((ih (x :: seen) u).mpr ⟨h1, ?_⟩)
            intro hc
            rcases List.mem_cons.mp hc with h | h
            · exact hux h
            · exact h2 h

theorem pyDedupGo_sublist :
    ∀ (l seen : List String), (pyDedupGo seen l).Sublist l := by
  intro l
  induction l with
  | nil => intro seen; exact List.Sublist.refl _
  | cons x xs ih =>
    intro seen
    rw [pyDedupGo]
    by_cases hx : x ∈ seen
    · rw [if_pos hx]
      exact (ih seen).cons x
    · rw [if_neg hx]
      exact (ih (x :: seen)).cons₂ x

theorem pyDedupGo_nodup :
    ∀ (l seen : List String), (pyDedupGo seen l).Nodup := by
  intro l
  induction l with
  | nil => intro seen; exact List.nodup_nil
  | cons x xs ih =>
    intro seen
    rw [pyDedupGo]
    by_cases hx : x ∈ seen
    · rw [if_pos hx]
      exact ih seen
    · rw [if_neg hx]
      rw [List.nodup_cons]
      refine ⟨fun hc => ?_, ih (x :: seen)⟩
      exact ((pyDedupGo_mem xs (x :: seen) x).mp hc).2 (List.mem_cons_self _ _)

/-- **C8 counterexample**: a comma-separated cell repeating the same URL
is returned with the duplicate intact — extraction does not de-duplicate
within a cell. -/
theorem C8_counterexample :
    extract_image_urls "http://a,http://a" = some ["http://a", "http://a"] ∧
    ¬ (["http://a", "http://a"] : List String).Nodup := by
  decide

/-- **C8 (amended)**  In-cell extraction accepts a JSON array of strings,
a bracket list without quoting, a semicolon- or comma-separated list, or
a bare URL, and returns the ordered list of non-empty stripped URLs —
but it does not remove duplicates within the cell; the order-preserving
first-occurrence de-duplication (`dict.fromkeys`) happens later in the
reconciler's `_process_product_images`. -/
theorem C8_extraction_trimmed_no_dedup :
    (∀ (cell : String) (r : List String), extract_image_urls cell = some r →
      ∀ u ∈ r, u ≠ "" ∧ pyStrip u = u) ∧
    (∀ l : List String, (pyDedup l).Nodup ∧ (pyDedup l).Sublist l ∧
      (∀ u, u ∈ pyDedup l ↔ u ∈ l)) ∧
    extract_image_urls "[\"http://a\", \"http://b\", \"http://a\"]"
      = some ["http://a", "http://b", "http://a"] ∧
    extract_image_urls "[http://a, http://b]" = some ["http://a", "http://b"] ∧
    extract_image_urls "http://a;http://b" = some ["http://a", "http://b"] ∧
    extract_image_urls " http://a " = some ["http://a"] ∧
    pyDedup ["http://a", "http://b", "http://a"] = ["http://a", "http://b"] := by
  refine ⟨fun cell r h => extract_elems h, ?_, by decide, by decide, by decide,
    by decide, by decide⟩
  intro l
  refine ⟨pyDedupGo_nodup l [], pyDedupGo_sublist l [], fun u => ?_⟩
  rw [pyDedup, pyDedupGo_mem]
  simp

/-- Witness for C8: the duplicate-preserving concrete cell, with each of
its returned URLs non-blank and stripped. -/
theorem C8_extraction_trimmed_no_dedup_witness :
    "http://a" ≠ "" ∧ pyStrip "http://a" = "http://a" :=
  C8_extraction_trimmed_no_dedup.1 "http://a,http://a" ["http://a", "http://a"]
    (by decide) "http://a" (by decide)


/-! ## JobService: the asynchronous job registry

Embedding of `JobService` (`job_service.py` 42-126).  The registry is the
`_jobs` dict as an association list; wall-clock instants
(`datetime.now().isoformat()`) are integers ordered like the timestamps
they model; the payload fields (`progress`, `result`, `error`,
`summary`) hold arbitrary Python values.  Lock acquisition serializes
the operations, so each is a pure state transformer. -/

/-- `JobStatus` (`job_service.py` 11-16). -/
inductive JobStatus where
  | pending
  | processing
  | completed
  | failed
deriving Repr, DecidableEq

/-- An arbitrary Python value stored in a payload field. -/
inductive PyVal where
  | none
  | int (n : Int)
  | str (s : String)
  | obj (tag : Nat)
deriving Repr, DecidableEq

/-- One job record. -/
structure Job where
  id : String
  status : JobStatus
  created_at : Int
  started_at : Option Int
  completed_at : Option Int
  progress : PyVal
  result : PyVal
  error : PyVal
  summary : PyVal
deriving Repr, DecidableEq

/-- `JobService.create_job` (42-63): insert a fresh pending record. -/
def create_job (reg : List (String × Job)) (job_id : String) (now : Int) :
    List (String × Job) :=
  reg ++ [(job_id,
    { id := job_id, status := JobStatus.pending, created_at := now,
      started_at := none, completed_at := none, progress := PyVal.int 0,
      result := PyVal.none, error := PyVal.none, summary := PyVal.none })]

/-- `self._jobs[job_id][key] = value` for a whitelisted key; other keys
leave the record unchanged. -/
def setField (j : Job) (k : String) (v : PyVal) : Job :=
  if k = "progress" then { j with progress := v }
  else if k = "result" then { j with result := v }
  else if k = "error" then { j with error := v }
  else if k = "summary" then { j with summary := v }
  else j

/-- The `for key, value in kwargs.items()` loop of lines 83-85. -/
def applyKwargs (j : Job) (kwargs : List (String × PyVal)) : Job :=
  kwargs.foldl (fun j kv => setField j kv.1 kv.2) j

/-- The mutation applied to an existing job by `update_job_status`
(76-85): set the status, stamp `started_at` on the first transition to
processing or `completed_at` on a terminal status, then apply the
whitelisted kwargs. -/
def update_one (j : Job) (status : JobStatus) (now : Int)
    (kwargs : List (String × PyVal)) : Job :=
  let j1 := { j with status := status }
  let j2 :=
    if status = JobStatus.processing ∧ j1.started_at = none then
      { j1 with started_at := some now }
    else if status = JobStatus.completed ∨ status = JobStatus.failed then
      { j1 with completed_at := some now }
    else j1
  applyKwargs j2 kwargs

/-- `JobService.update_job_status` (65-89): a silent no-op when the id
is absent. -/
def update_job_status (reg : List (String × Job)) (job_id : String)
    (status : JobStatus) (now : Int) (kwargs : List (String × PyVal)) :
    List (String × Job) :=
  if (List.lookup job_id reg).isSome then
    reg.map (fun kv => if kv.1 = job_id then (kv.1, update_one kv.2 status now kwargs) else kv)
  else reg

/-- `JobService.get_job` (91-102): returns the record (or `None`) and
the untouched registry. -/
def get_job (reg : List (String × Job)) (job_id : String) :
    List (String × Job) × Option Job :=
  (reg, List.lookup job_id reg)

/-- `JobService.cleanup_old_jobs` (104-126): drop the entries whose
`completed_at` is set and older than the cutoff. -/
def cleanup_old_jobs (reg : List (String × Job)) (now max_age_hours : Int) :
    List (String × Job) :=
  reg.filter (fun kv =>
    !(match kv.2.completed_at with
      | some t => decide (t < now - max_age_hours * 3600)
      | none => false))

/-- Registries reachable through the service under the callers'
discipline (`product_router.py` 343-401): a job is created pending, and
a non-terminal status is only ever written over a job that is still
pending or processing (the router sets `PROCESSING` once right after
creation and then only `COMPLETED`/`FAILED`). -/
inductive Reachable : List (String × Job) → Prop where
  | empty : Reachable []
  | create (reg : List (String × Job)) (job_id : String) (now : Int) :
      Reachable reg → Reachable (create_job reg job_id now)
  | update (reg : List (String × Job)) (job_id : String) (status : JobStatus)
      (now : Int) (kwargs : List (String × PyVal)) :
      Reachable reg →
      ((status = JobStatus.pending ∨ status = JobStatus.processing) →
        ∀ kv ∈ reg, kv.1 = job_id →
          kv.2.status = JobStatus.pending ∨ kv.2.status = JobStatus.processing) →
      Reachable (update_job_status reg job_id status now kwargs)
  | cleanup (reg : List (String × Job)) (now max_age_hours : Int) :
      Reachable reg → Reachable (cleanup_old_jobs reg now max_age_hours)

/-! ### Job-service lemmas -/

/-- The whitelisted kwargs touch none of the id, bookkeeping or
timestamp fields. -/
theorem applyKwargs_frame (kwargs : List (String × PyVal)) :
    ∀ j : Job, (applyKwargs j kwargs).id = j.id ∧
      (applyKwargs j kwargs).created_at = j.created_at ∧
      (applyKwargs j kwargs).status = j.status ∧
      (applyKwargs j kwargs).started_at = j.started_at ∧
      (applyKwargs j kwargs).completed_at = j.completed_at := by
  induction kwargs with
  | nil => intro j; exact ⟨rfl, rfl, rfl, rfl, rfl⟩
  | cons kv rest ih =>
    intro j
    have hstep : (setField j kv.1 kv.2).id = j.id ∧
        (setField j kv.1 kv.2).created_at = j.created_at ∧
        (setField j kv.1 kv.2).status = j.status ∧
        (setField j kv.1 kv.2).started_at = j.started_at ∧
        (setField j kv.1 kv.2).completed_at = j.completed_at := by
      rw [setField]
      by_cases h1 : kv.1 = "progress"
      · simp [h1]
      · by_cases h2 : kv.1 = "result"
        · simp [h1, h2]
        · by_cases h3 : kv.1 = "error"
          · simp [h1, h2, h3]
          · by_cases h4 : kv.1 = "summary"
            · simp [h1, h2, h3, h4]
            · simp [h1, h2, h3, h4]
    have := ih (setField j kv.1 kv.2)
    rw [applyKwargs] at this ⊢
    rw [List.foldl_cons]
    refine ⟨?_, ?_, ?_, ?_, ?_⟩
    · rw [this.1, hstep.1]
    · rw [this.2.1, hstep.2.1]
    · rw [this.2.2.1, hstep.2.2.1]
    · rw [this.2.2.2.1, hstep.2.2.2.1]
    · rw [this.2.2.2.2, hstep.2.2.2.2]

/-- A key outside the whitelist is ignored. -/
theorem setField_ignored {k : String} (v : PyVal) (j : Job)
    (h1 : k ≠ "progress") (h2 : k ≠ "result") (h3 : k ≠ "error")
    (h4 : k ≠ "summary") : setField j k v = j := by
  rw [setField, if_neg h1, if_neg h2, if_neg h3, if_neg h4]

/-- In any reachable registry, a pending or processing job has no
completion timestamp. -/
theorem reachable_nonterminal_no_completed {reg : List (String × Job)}
    (h : Reachable reg) :
    ∀ kv ∈ reg, (kv.2.status = JobStatus.pending ∨ kv.2.status = JobStatus.processing) →
      kv.2.completed_at = none := by
  induction h with
  | empty => intro kv hkv; cases hkv
  | create reg job_id now _ ih =>
    intro kv hkv hst
    rcases List.mem_append.mp hkv with hkv | hkv
    · exact ih kv hkv hst
    · rw [List.mem_singleton] at hkv
      subst hkv
      rfl
  | update reg job_id status now kwargs _ hside ih =>
    intro kv hkv hst
    rw [update_job_status] at hkv
    by_cases hs : (List.lookup job_id reg).isSome
    · rw [if_pos hs] at hkv
      obtain ⟨kv0, hkv0, hkveq⟩ := List.mem_map.mp hkv
      by_cases hid : kv0.1 = job_id
      · rw [if_pos hid] at hkveq
        subst hkveq
        have hfr := applyKwargs_frame kwargs
        have hold : kv0.2.status = JobStatus.pending ∨
            kv0.2.status = JobStatus.processing := by
          apply hside _ kv0 hkv0 hid
          -- the written status equals the new job's status
          have hstat : (update_one kv0.2 status now kwargs).status = status := by
            rw [update_one]
            rw [(applyKwargs_frame kwargs _).2.2.1]
            by_cases hc1 : status = JobStatus.processing ∧
                ({ kv0.2 with status := status } : Job).started_at = none
            · rw [if_pos hc1]
            · rw [if_neg hc1]
              by_cases hc2 : status = JobStatus.completed ∨ status = JobStatus.failed
              · rw [if_pos hc2]
              · rw [if_neg hc2]
          rw [hstat] at hst
          exact hst
        have hstat : (update_one kv0.2 status now kwargs).status = status := by
          rw [update_one]
          rw [(applyKwargs_frame kwargs _).2.2.1]
          by_cases hc1 : status = JobStatus.processing ∧
              ({ kv0.2 with status := status } : Job).started_at = none
          · rw [if_pos hc1]
          · rw [if_neg hc1]
            by_cases hc2 : status = JobStatus.completed ∨ status = JobStatus.failed
            · rw [if_pos hc2]
            · rw [if_neg hc2]
        have hcold : kv0.2.completed_at = none := ih kv0 hkv0 hold
        show (update_one kv0.2 status now kwargs).completed_at = none
        rw [update_one, (applyKwargs_frame kwargs _).2.2.2.2]
        rw [hstat] at hst
        by_cases hc1 : status = JobStatus.processing ∧
            ({ kv0.2 with status := status } : Job).started_at = none
        · rw [if_pos hc1]
          exact hcold
        · rw [if_neg hc1]
          by_cases hc2 : status = JobStatus.completed ∨ status = JobStatus.failed
          · rcases hst with hst | hst <;> rcases hc2 with hc2 | hc2 <;>
              rw [hst] at hc2 <;> exact absurd hc2 (by decide)
          · rw [if_neg hc2]
            exact hcold
      · rw [if_neg hid] at hkveq
        subst hkveq
        exact ih kv0 hkv0 hst
    · rw [if_neg hs] at hkv
      exact ih kv hkv hst
  | cleanup reg now max_age_hours _ ih =>
    intro kv hkv hst
    rw [cleanup_old_jobs] at hkv
    exact ih kv (List.mem_filter.mp hkv).1 hst


theorem lookup_isSome_of_mem :
    ∀ (reg : List (String × Job)) (kv : String × Job), kv ∈ reg →
      (List.lookup kv.1 reg).isSome = true := by
  intro reg
  induction reg with
  | nil => intro kv h; cases h
  | cons a t ih =>
    intro kv h
    cases a with
    | mk a1 a2 =>
      by_cases hk : (kv.1 == a1) = true
      · simp [List.lookup, hk]
      · rcases List.mem_cons.mp h with rfl | h
        · simp at hk
        · simp only [List.lookup, hk]
          exact ih kv h

/-- **C9**  Job purge and read-only polling: `get_job` returns the
registry unchanged; the sweep keeps an entry iff it does NOT have a
completion timestamp older than the cutoff `now - max_age_hours·3600`
(so it removes exactly the stale terminal jobs); and in every registry
reachable under the callers' status discipline, a job still pending or
processing has no completion timestamp and therefore survives every
sweep, regardless of its age. -/
theorem C9_job_purge_and_readonly_polling :
    (∀ (reg : List (String × Job)) (job_id : String), (get_job reg job_id).1 = reg) ∧
    (∀ (reg : List (String × Job)) (now max_age_hours : Int) (kv : String × Job),
      kv ∈ reg →
      (kv ∈ cleanup_old_jobs reg now max_age_hours ↔
        ¬ ∃ t, kv.2.completed_at = some t ∧ t < now - max_age_hours * 3600)) ∧
    (∀ (reg : List (String × Job)), Reachable reg →
      ∀ kv ∈ reg,
        (kv.2.status = JobStatus.pending ∨ kv.2.status = JobStatus.processing) →
        ∀ (now max_age_hours : Int), kv ∈ cleanup_old_jobs reg now max_age_hours) := by
  refine ⟨fun reg job_id => rfl, ?_, ?_⟩
  · intro reg now mah kv hkv
    rw [cleanup_old_jobs, List.mem_filter]
    constructor
    · rintro ⟨-, hp⟩ ⟨t, ht, hlt⟩
      rw [ht] at hp
      simp [hlt] at hp
    · intro hne
      refine ⟨hkv, ?_⟩
      cases hc : kv.2.completed_at with
      | none => simp [hc]
      | some t =>
        by_cases hlt : t < now - mah * 3600
        · exact absurd ⟨t, hc, hlt⟩ hne
        · simp [hc, hlt]
  · intro reg hreach kv hkv hst now mah
    have hc := reachable_nonterminal_no_completed hreach kv hkv hst
    rw [cleanup_old_jobs, List.mem_filter]
    exact ⟨hkv, by simp [hc]⟩

/-- Witness for C9: polling a one-job registry returns it unchanged, and
the freshly created pending job survives a sweep far in the future. -/
theorem C9_job_purge_and_readonly_polling_witness :
    (get_job (create_job [] "j1" 0) "j1").1 = create_job [] "j1" 0 ∧
    ("j1", { id := "j1", status := JobStatus.pending, created_at := 0,
             started_at := none, completed_at := none, progress := PyVal.int 0,
             result := PyVal.none, error := PyVal.none, summary := PyVal.none })
      ∈ cleanup_old_jobs (create_job [] "j1" 0) 200000 24 :=
  ⟨C9_job_purge_and_readonly_polling.1 (create_job [] "j1" 0) "j1",
   C9_job_purge_and_readonly_polling.2.2 (create_job [] "j1" 0)
     (Reachable.create [] "j1" 0 Reachable.empty) _ (by decide) (by decide) 200000 24⟩

theorem applyKwargs_filter_whitelist :
    ∀ (kwargs : List (String × PyVal)) (j : Job),
      applyKwargs j kwargs
        = applyKwargs j (kwargs.filter (fun kv =>
            kv.1 = "progress" || kv.1 = "result" || kv.1 = "error" ||
              kv.1 = "summary")) := by
  intro kwargs
  induction kwargs with
  | nil => intro j; rfl
  | cons kv rest ih =>
    intro j
    by_cases hw : (kv.1 = "progress" || kv.1 = "result" || kv.1 = "error"
        || kv.1 = "summary") = true
    · rw [applyKwargs, List.foldl_cons, List.filter_cons_of_pos (by simpa using hw)]
      rw [applyKwargs, List.foldl_cons]
      exact ih (setField j kv.1 kv.2)
    · have hig : setField j kv.1 kv.2 = j := by
        simp only [Bool.or_eq_true, decide_eq_true_eq, not_or] at hw
        exact setField_ignored kv.2 j hw.1.1.1 hw.1.1.2 hw.1.2 hw.2
      rw [applyKwargs, List.foldl_cons, hig, List.filter_cons_of_neg (by simpa using hw)]
      exact ih j

/-- **C10**  Frame of `update_job_status`: an unknown id is a silent
no-op; entries with other ids are untouched; the target entry stays
under its key and is rewritten by `update_one`, which changes only the
status, the `started_at` stamp (only on the first transition to
processing), the `completed_at` stamp (only on a terminal status), and
the whitelisted payload fields — the id and `created_at` are never
modified and non-whitelisted kwargs are ignored. -/
theorem C10_update_frame :
    (∀ (reg : List (String × Job)) (job_id : String) (status : JobStatus) (now : Int)
        (kwargs : List (String × PyVal)),
      List.lookup job_id reg = none →
      update_job_status reg job_id status now kwargs = reg) ∧
    (∀ (reg : List (String × Job)) (job_id : String) (status : JobStatus) (now : Int)
        (kwargs : List (String × PyVal)) (kv : String × Job),
      kv ∈ reg → kv.1 ≠ job_id →
      kv ∈ update_job_status reg job_id status now kwargs) ∧
    (∀ (reg : List (String × Job)) (job_id : String) (status : JobStatus) (now : Int)
        (kwargs : List (String × PyVal)) (kv : String × Job),
      kv ∈ reg → kv.1 = job_id →
      (kv.1, update_one kv.2 status now kwargs)
        ∈ update_job_status reg job_id status now kwargs) ∧
    (∀ (j : Job) (status : JobStatus) (now : Int) (kwargs : List (String × PyVal)),
      (update_one j status now kwargs).id = j.id ∧
      (update_one j status now kwargs).created_at = j.created_at ∧
      (update_one j status now kwargs).status = status ∧
      (update_one j status now kwargs).started_at
        = (if status = JobStatus.processing ∧ j.started_at = none then some now
           else j.started_at) ∧
      (update_one j status now kwargs).completed_at
        = (if status = JobStatus.completed ∨ status = JobStatus.failed then some now
           else j.completed_at)) ∧
    (∀ (j : Job) (status : JobStatus) (now : Int) (kwargs : List (String × PyVal)),
      update_one j status now kwargs
        = update_one j status now (kwargs.filter (fun kv =>
            kv.1 = "progress" || kv.1 = "result" || kv.1 = "error" ||
              kv.1 = "summary"))) := by
  refine ⟨?_, ?_, ?_, ?_, ?_⟩
  · intro reg job_id status now kwargs h
    rw [update_job_status, h]
    rfl
  · intro reg job_id status now kwargs kv hkv hne
    rw [update_job_status]
    by_cases hs : (List.lookup job_id reg).isSome = true
    · rw [if_pos hs]
      exact List.mem_map.mpr ⟨kv, hkv, by rw [if_neg hne]⟩
    · rw [if_neg hs]
      exact hkv
  · intro reg job_id status now kwargs kv hkv hid
    have hs : (List.lookup job_id reg).isSome = true := by
      rw [← hid]
      exact lookup_isSome_of_mem reg kv hkv
    rw [update_job_status, if_pos hs]
    exact List.mem_map.mpr ⟨kv, hkv, by rw [if_pos hid]⟩
  · intro j status now kwargs
    have hfr := applyKwargs_frame kwargs
    rw [update_one]
    by_cases hc1 : status = JobStatus.processing ∧ j.started_at = none
    · have hc1' : status = JobStatus.processing ∧
          ({ j with status := status } : Job).started_at = none := hc1
      rw [if_pos hc1']
      have hterm : ¬(status = JobStatus.completed ∨ status = JobStatus.failed) := by
        rw [hc1.1]
        decide
      exact ⟨(hfr _).1, (hfr _).2.1, (hfr _).2.2.1,
        by rw [(hfr _).2.2.2.1, if_pos hc1],
        by rw [(hfr _).2.2.2.2, if_neg hterm]⟩
    · have hc1' : ¬(status = JobStatus.processing ∧
          ({ j with status := status } : Job).started_at = none) := hc1
      rw [if_neg hc1']
      by_cases hc2 : status = JobStatus.completed ∨ status = JobStatus.failed
      · rw [if_pos hc2]
        exact ⟨(hfr _).1, (hfr _).2.1, (hfr _).2.2.1,
          by rw [(hfr _).2.2.2.1, if_neg hc1],
          by rw [(hfr _).2.2.2.2, if_pos hc2]⟩
      · rw [if_neg hc2]
        exact ⟨(hfr _).1, (hfr _).2.1, (hfr _).2.2.1,
          by rw [(hfr _).2.2.2.1, if_neg hc1],
          by rw [(hfr _).2.2.2.2, if_neg hc2]⟩
  · intro j status now kwargs
    rw [update_one, update_one, applyKwargs_filter_whitelist]

/-- Witness for C10: updating a missing id leaves a concrete registry
unchanged, and updating the present id keeps the entry under its key
with the `update_one` record. -/
theorem C10_update_frame_witness :
    update_job_status (create_job [] "j1" 0) "zz" JobStatus.processing 5
        [("progress", PyVal.int 10)]
      = create_job [] "j1" 0 ∧
    ("j1", update_one
        { id := "j1", status := JobStatus.pending, created_at := 0,
          started_at := none, completed_at := none, progress := PyVal.int 0,
          result := PyVal.none, error := PyVal.none, summary := PyVal.none }
        JobStatus.processing 5 [("progress", PyVal.int 10)])
      ∈ update_job_status (create_job [] "j1" 0) "j1" JobStatus.processing 5
          [("progress", PyVal.int 10)] :=
  ⟨C10_update_frame.1 (create_job [] "j1" 0) "zz" JobStatus.processing 5
      [("progress", PyVal.int 10)] (by decide),
   C10_update_frame.2.2.1 (create_job [] "j1" 0) "j1" JobStatus.processing 5
      [("progress", PyVal.int 10)]
      ("j1", { id := "j1", status := JobStatus.pending, created_at := 0,
               started_at := none, completed_at := none, progress := PyVal.int 0,
               result := PyVal.none, error := PyVal.none, summary := PyVal.none })
      (by decide) (by decide)⟩


end Sitefortlar
